import Mathlib

/-!
# Index construction in the storage node (`storage/IndexBaseProcessor.inl`)

A shallow embedding of `IndexBaseProcessor<RESP>`:

* `finishProcess`: the join barrier shared by the partitions of one build;
* `doIndexCreate`: the scan / batch / write loop of one partition;
* `doBatchPut`: the blocking bridge over `asyncMultiPut`;
* `assembleEdgeIndexKey`, `assembleVertexIndexKey`: the row transformers;

and of `Executor::checkACL` (`graph/Executor.h`), the authorization check of
the query executor.

Everything the processor only consumes (the key codec `NebulaKeyUtils`, the
schema manager, the row reader, the key-value store, the translation `to`) is
a field of the processor record below, so every theorem holds for all of them.
A run is described by the list of the actions it performs, in order.
-/

namespace nebula

/-- A `std::string` of raw bytes; `size()` is the length of the list. -/
abbrev Bytes := List UInt8

/-- The `int32_t` wrap-around of an integer (two's complement). -/
def wrapInt32 (x : Int) : Int := (x + 2147483648) % 4294967296 - 2147483648

/-- A `Status` / `StatusOr<T>`: a value, or an error made of a format string and
its integer arguments. -/
inductive StatusOr (α : Type) where
  | ok (value : α)
  | error (fmt : String) (args : List Int)
  deriving DecidableEq

/-- An `ErrorOr<ResultCode, T>` as returned by `partLeader`. -/
inductive ErrorOr (ε α : Type) where
  | ok (value : α)
  | error (e : ε)
  deriving DecidableEq

namespace kvstore

/-- The store's `kvstore::ResultCode`. The processor only ever compares it with
`SUCCEEDED`; all other enumerators are numbered. -/
inductive ResultCode where
  | SUCCEEDED
  | other (n : Nat)
  deriving DecidableEq

/-- A `kvstore::KV`: the pair built by `data.emplace_back(indexKey, key)`. -/
abbrev KV := Bytes × Bytes

end kvstore

namespace cpp2

/-- The storage `cpp2::ErrorCode`. The processor names `SUCCEEDED` and
`E_LEADER_CHANGED`; all other enumerators are numbered. -/
inductive ErrorCode where
  | SUCCEEDED
  | E_LEADER_CHANGED
  | other (n : Nat)
  deriving DecidableEq

/-- The thrift `HostAddr` set with `set_ip` / `set_port`. -/
structure HostAddr where
  ip : Int
  port : Int
  deriving DecidableEq

/-- The thrift `cpp2::ResultCode` of one partition: `code`, `part_id` and the
optional `leader`. -/
structure ResultCode where
  code : ErrorCode
  part_id : Int
  leader : Option HostAddr
  deriving DecidableEq

/-- The `nebula::cpp2::IndexType` of the index being built. -/
inductive IndexType where
  | EDGE
  | TAG
  deriving DecidableEq

end cpp2

namespace graph

/-- A `Status`: `OK`, or an error made of a format string and its integer
arguments. -/
inductive Status where
  | OK
  | Error (fmt : String) (args : List Int)
  deriving DecidableEq

/-- A question `checkACL` puts to the meta client, directly or through
`UserAccessControl::checkPerms`, which is handed the client. -/
inductive MetaCall (Kind : Type) where
  /-- The call `getMetaClient()->getUserIdByNameFromCache(user)`. -/
  | getUserIdByNameFromCache (user : String)
  /-- The call `UserAccessControl::checkPerms(spaceId, userId, op, client)`. -/
  | checkPerms (spaceId : Int) (userId : Int) (op : Kind)
  deriving DecidableEq

/-- What `Executor::checkACL` consumes: the user cache of the meta client and
`UserAccessControl::checkPerms`. `Kind` is `Sentence::Kind`. -/
structure AccessControl (Kind : Type) where
  getUserIdByNameFromCache : String → StatusOr Int
  checkPerms : Int → Int → Kind → Status

/-- The function `Executor::checkACL(spaceId, user, op)` (`graph/Executor.h`,
lines 124-140) under the value of the flag
`FLAGS_security_authorization_enable`: the status it returns and the questions
it has put to the meta client, in order. -/
def checkACL {Kind : Type} (FLAGS_security_authorization_enable : Bool)
    (ac : AccessControl Kind) (spaceId : Int) (user : String) (op : Kind) :
    Status × List (MetaCall Kind) :=
  if !FLAGS_security_authorization_enable then (Status.OK, [])
  else
    match ac.getUserIdByNameFromCache user with
    | StatusOr.error fmt args =>
      (Status.Error fmt args, [MetaCall.getUserIdByNameFromCache user])
    | StatusOr.ok userId =>
      let ret := ac.checkPerms spaceId userId op
      (if ret ≠ Status.OK then ret else Status.OK,
        [MetaCall.getUserIdByNameFromCache user, MetaCall.checkPerms spaceId userId op])

/-- An access control for the examples: the users `root` (id 1) and `guest`
(id 2) are known; `root` may do everything, `guest` only sentences of kind
`0`. -/
def demoAccess : AccessControl Nat :=
  { getUserIdByNameFromCache := fun user =>
      if user = "root" then StatusOr.ok 1
      else if user = "guest" then StatusOr.ok 2
      else StatusOr.error "User not found" []
    checkPerms := fun _ userId op =>
      if userId = 1 ∨ op = 0 then Status.OK else Status.Error "Permission denied" [] }

end graph

namespace storage

/-- One action of a run, in program order. -/
inductive Event where
  /-- Lines 58-60: `iter->key()`, `iter->val()`, `iter->next()`. -/
  | iterRead (key val : Bytes)
  /-- Lines 61-63: the row is handed to `assemble*IndexKey`. -/
  | assemble (key val : Bytes)
  /-- A call `doBatchPut(spaceId_, partId, std::move(data))`. -/
  | doBatchPut (data : List kvstore.KV)
  /-- A call `kvstore_->partLeader(spaceId_, partId)`. -/
  | partLeader
  /-- A call `finishProcess(thriftResult)`. -/
  | finishProcess (thriftResult : cpp2.ResultCode)
  /-- The call `kvstore_->deleteSnapshot(spaceId_)`. -/
  | deleteSnapshot (spaceId : Int)
  /-- The call `onFinished()`. -/
  | onFinished
  /-- The process is aborted by a failed `CHECK(ok(addrRet))`. -/
  | checkFailed
  /-- The process dereferences a null `reader` (`reader->schemaVer()`). -/
  | nullDeref
  deriving DecidableEq

/-- The outcome of a call that dereferences a pointer: it returns, or the
pointer was null. -/
inductive Exec (α : Type) where
  | returns (a : α)
  | nullDeref
  deriving DecidableEq

/-- The fields of `BaseProcessor` that `finishProcess` reads and writes under
`lock_`. `callingNum_` is declared in `BaseProcessor.h`; it is an integer
counter here. `failed_codes` is the field of `result_`, `none` until
`set_failed_codes` has run. -/
structure Aggregator where
  codes_ : List cpp2.ResultCode
  callingNum_ : Int
  failed_codes : Option (List cpp2.ResultCode)
  deriving DecidableEq

/-- The processor: its own fields and the collaborators it calls.
`Reader` is the `RowReader` behind the `unique_ptr`, `Cols` the second
component of an entry of `props_`. -/
structure IndexBaseProcessor (Reader Cols : Type) where
  spaceId_ : Int
  indexId_ : Int
  indexType_ : cpp2.IndexType
  props_ : List (Int × Cols)
  /-- The translation `BaseProcessor::to`, from a store code to a storage code
  (`to` is a keyword here, hence the underscore). -/
  to_ : kvstore.ResultCode → cpp2.ErrorCode
  /-- The call `collectColsVal(reader.get(), prop.second)`. -/
  collectColsVal : Reader → Cols → StatusOr Bytes
  /-- The call `reader->schemaVer()`. -/
  schemaVer : Reader → Int
  /-- The call `RowReader::getTagPropReader(schemaMan_, val, spaceId, tagId)`;
  `none` is the null pointer. -/
  getTagPropReader : Bytes → Int → Int → Option Reader
  /-- The call `RowReader::getEdgePropReader(schemaMan_, val, spaceId, edgeType)`. -/
  getEdgePropReader : Bytes → Int → Int → Option Reader
  /-- The call `schemaMan_->getNewestTagSchemaVer(spaceId, tagId)`. -/
  getNewestTagSchemaVer : Int → Int → StatusOr Int
  /-- The call `schemaMan_->getNewestEdgeSchemaVer(spaceId, edgeType)`. -/
  getNewestEdgeSchemaVer : Int → Int → StatusOr Int
  /-- The call `NebulaKeyUtils::getVertexLen()`. -/
  getVertexLen : Int
  /-- The call `NebulaKeyUtils::getEdgeLen()`. -/
  getEdgeLen : Int
  /-- The call `NebulaKeyUtils::partPrefix(partId)`. -/
  partPrefix : Int → Bytes
  parseTagId : Bytes → Int
  parseVertexId : Bytes → Int
  parseTagVersion : Bytes → Int
  parseEdgeType : Bytes → Int
  parseEdgeVersion : Bytes → Int
  /-- The call `NebulaKeyUtils::tagIndexkey(partId, indexId, vId, ver, propVal)`. -/
  tagIndexkey : Int → Int → Int → Int → Bytes → Bytes
  /-- The call `NebulaKeyUtils::edgeIndexkey(partId, indexId, edgeType, ver, propVal)`. -/
  edgeIndexkey : Int → Int → Int → Int → Bytes → Bytes
  /-- The call `kvstore_->prefixSnapshot(spaceId, partId, pfx, &iter)`: the code it
  returns and the iterator it leaves in `iter` (`none` is the null pointer),
  the iterator being the rows it will yield, in scan order. -/
  prefixSnapshot : Int → Int → Bytes → kvstore.ResultCode × Option (List (Bytes × Bytes))
  /-- The call `kvstore_->asyncMultiPut(spaceId, partId, data, cb)`: the code handed to
  the callback. The first argument is the number of puts the run has issued
  before this one, so that successive writes may end differently. -/
  asyncMultiPut : Nat → Int → Int → List kvstore.KV → kvstore.ResultCode
  /-- The call `kvstore_->partLeader(spaceId, partId)`. -/
  partLeader : Int → Int → ErrorOr kvstore.ResultCode (Int × Int)

variable {Reader Cols : Type}

/-- The function `finishProcess(thriftResult)` (lines 16-34): the new state of
the shared fields and the calls made after the lock is released.
`std::move(codes_)` leaves `codes_` empty. -/
def finishProcess (spaceId_ : Int) (s : Aggregator) (thriftResult : cpp2.ResultCode) :
    Aggregator × List Event :=
  let codes :=
    if thriftResult.code ≠ cpp2.ErrorCode.SUCCEEDED then s.codes_ ++ [thriftResult]
    else s.codes_
  let callingNum := s.callingNum_ - 1
  if callingNum = 0 then
    ({ codes_ := [], callingNum_ := callingNum, failed_codes := some codes },
      [Event.deleteSnapshot spaceId_, Event.onFinished])
  else
    ({ codes_ := codes, callingNum_ := callingNum, failed_codes := s.failed_codes }, [])

/-- The reports of several partitions, one `finishProcess` after the other:
the final state and, for each call, the calls it made. -/
def finishAll (spaceId_ : Int) : Aggregator → List cpp2.ResultCode →
    Aggregator × List (List Event)
  | s, [] => (s, [])
  | s, r :: rs =>
    let step := finishProcess spaceId_ s r
    let rest := finishAll spaceId_ step.1 rs
    (rest.1, step.2 :: rest.2)

/-- The state of the shared fields when a build over `n` partitions starts. -/
def Aggregator.start (n : Nat) : Aggregator :=
  { codes_ := [], callingNum_ := n, failed_codes := none }

/-- The loop of `assembleVertexIndexKey` over `props_` (lines 167-183), for a
row whose tag is `tagId` and whose reader is `reader`. -/
def assembleVertexProps (p : IndexBaseProcessor Reader Cols) (spaceId partId : Int)
    (key : Bytes) (tagId : Int) (reader : Option Reader) :
    List (Int × Cols) → Exec (StatusOr Bytes)
  | [] => Exec.returns (StatusOr.error "Not is newly version by vertex" [])
  | prop :: rest =>
    match p.getNewestTagSchemaVer spaceId tagId with
    | StatusOr.error _ _ =>
      Exec.returns (StatusOr.error "Space %d tag %d invalid" [spaceId, tagId])
    | StatusOr.ok newest =>
      if tagId = prop.1 then
        match reader with
        | none => Exec.nullDeref
        | some r =>
          if newest = p.schemaVer r then
            match p.collectColsVal r prop.2 with
            | StatusOr.error _ _ => Exec.returns (StatusOr.error "Get tag Prop failing" [])
            | StatusOr.ok propVal =>
              let ver := p.parseTagVersion key
              let vId := p.parseVertexId key
              Exec.returns (StatusOr.ok (p.tagIndexkey partId p.indexId_ vId ver propVal))
          else assembleVertexProps p spaceId partId key tagId reader rest
      else assembleVertexProps p spaceId partId key tagId reader rest

/-- The function `assembleVertexIndexKey(spaceId, partId, key, val)` (lines
158-184). The size of a key is below `2^31`, where `folly::to<int32_t>` is
exact. -/
def assembleVertexIndexKey (p : IndexBaseProcessor Reader Cols) (spaceId partId : Int)
    (key val : Bytes) : Exec (StatusOr Bytes) :=
  if (key.length : Int) ≠ p.getVertexLen then
    Exec.returns (StatusOr.error "Skip this row" [])
  else
    let tagId := p.parseTagId key
    let reader := p.getTagPropReader val spaceId tagId
    assembleVertexProps p spaceId partId key tagId reader p.props_

/-- The loop of `assembleEdgeIndexKey` over `props_` (lines 139-155). -/
def assembleEdgeProps (p : IndexBaseProcessor Reader Cols) (spaceId partId : Int)
    (key : Bytes) (edgeType : Int) (reader : Option Reader) :
    List (Int × Cols) → Exec (StatusOr Bytes)
  | [] => Exec.returns (StatusOr.error "Not is newly version by edge" [])
  | prop :: rest =>
    match p.getNewestEdgeSchemaVer spaceId edgeType with
    | StatusOr.error _ _ =>
      Exec.returns (StatusOr.error "Space %d edge %d invalid" [spaceId, edgeType])
    | StatusOr.ok newest =>
      if edgeType = prop.1 then
        match reader with
        | none => Exec.nullDeref
        | some r =>
          if newest = p.schemaVer r then
            match p.collectColsVal r prop.2 with
            | StatusOr.error _ _ => Exec.returns (StatusOr.error "Get edge Prop failing" [])
            | StatusOr.ok propVal =>
              let ver := p.parseEdgeVersion key
              Exec.returns (StatusOr.ok (p.edgeIndexkey partId p.indexId_ edgeType ver propVal))
          else assembleEdgeProps p spaceId partId key edgeType reader rest
      else assembleEdgeProps p spaceId partId key edgeType reader rest

/-- The function `assembleEdgeIndexKey(spaceId, partId, key, val)` (lines 131-156). -/
def assembleEdgeIndexKey (p : IndexBaseProcessor Reader Cols) (spaceId partId : Int)
    (key val : Bytes) : Exec (StatusOr Bytes) :=
  if (key.length : Int) ≠ p.getEdgeLen then
    Exec.returns (StatusOr.error "Skip this row" [])
  else
    let edgeType := p.parseEdgeType key
    let reader := p.getEdgePropReader val spaceId edgeType
    assembleEdgeProps p spaceId partId key edgeType reader p.props_

/-- Lines 61-63: the transformer chosen by `indexType_`. -/
def assembleIndexKey (p : IndexBaseProcessor Reader Cols) (partId : Int)
    (key val : Bytes) : Exec (StatusOr Bytes) :=
  if p.indexType_ = cpp2.IndexType.EDGE then assembleEdgeIndexKey p p.spaceId_ partId key val
  else assembleVertexIndexKey p p.spaceId_ partId key val

/-- The function `doBatchPut(spaceId, partId, data)` (lines 115-129), issued as
put number `n` of the run: the baton is posted by the store's callback, whose
code is translated unless it is `SUCCEEDED`. -/
def doBatchPut (p : IndexBaseProcessor Reader Cols) (n : Nat) (spaceId partId : Int)
    (data : List kvstore.KV) : cpp2.ErrorCode :=
  let code := p.asyncMultiPut n spaceId partId data
  if code ≠ kvstore.ResultCode.SUCCEEDED then p.to_ code else cpp2.ErrorCode.SUCCEEDED

/-- How the block that follows a `doBatchPut` ends (lines 72-84 and 91-103). -/
inductive AfterPut where
  /-- Control falls out of the block with this `thriftResult`. -/
  | proceed (thriftResult : cpp2.ResultCode)
  /-- The statements `finishProcess(thriftResult); return;` are reached with
  this result. -/
  | stop (thriftResult : cpp2.ResultCode)
  /-- The `CHECK(ok(addrRet))` failed. -/
  | checkFailed
  deriving DecidableEq

/-- The block that follows a `doBatchPut` returning `code` (lines 72-84, and
again lines 91-103): the calls it makes and how it ends. -/
def afterPut (p : IndexBaseProcessor Reader Cols) (partId : Int) (code : cpp2.ErrorCode)
    (thriftResult : cpp2.ResultCode) : List Event × AfterPut :=
  if code = cpp2.ErrorCode.E_LEADER_CHANGED then
    match p.partLeader p.spaceId_ partId with
    | ErrorOr.error _ => ([Event.partLeader, Event.checkFailed], AfterPut.checkFailed)
    | ErrorOr.ok addr =>
      ([Event.partLeader],
        AfterPut.proceed { thriftResult with leader := some { ip := addr.1, port := addr.2 } })
  else if code ≠ cpp2.ErrorCode.SUCCEEDED then
    ([], AfterPut.stop { thriftResult with code := code })
  else ([], AfterPut.proceed thriftResult)

/-- The local variables of `doIndexCreate` that the scan loop changes, and the
number of puts issued so far. -/
structure ScanState where
  data : List kvstore.KV
  batchPutNum : Int
  thriftResult : cpp2.ResultCode
  puts : Nat
  deriving DecidableEq

/-- How the scan loop is left. -/
inductive ScanExit where
  /-- Here `iter->valid()` is false: control reaches line 89. -/
  | exhausted (st : ScanState)
  /-- Lines 81-83: `finishProcess(thriftResult); return;` with this result. -/
  | stop (thriftResult : cpp2.ResultCode)
  /-- The process did not survive (failed `CHECK`, null `reader`). -/
  | aborted
  deriving DecidableEq

/-- The actions `evs`, then the run `r`. -/
def andThen (evs : List Event) (r : List Event × ScanExit) : List Event × ScanExit :=
  (evs ++ r.1, r.2)

/-- The `while (iter->valid())` loop (lines 57-87) over the rows the iterator
still holds, under the value of the flag
`FLAGS_bulk_number_per_index_creation` (an `int32`, declared on line 11).
`std::move(data)` into `doBatchPut` leaves `data` empty. -/
def scanLoop (FLAGS_bulk_number_per_index_creation : Int)
    (p : IndexBaseProcessor Reader Cols) (partId : Int) :
    List (Bytes × Bytes) → ScanState → List Event × ScanExit
  | [], st => ([], ScanExit.exhausted st)
  | row :: rest, st =>
    let key := row.1
    let val := row.2
    andThen [Event.iterRead key val, Event.assemble key val]
      (match assembleIndexKey p partId key val with
      | Exec.nullDeref => ([Event.nullDeref], ScanExit.aborted)
      | Exec.returns (StatusOr.error _ _) =>
        scanLoop FLAGS_bulk_number_per_index_creation p partId rest st
      | Exec.returns (StatusOr.ok indexKey) =>
        let data := st.data ++ [(indexKey, key)]
        let batchPutNum := wrapInt32 (st.batchPutNum + 1)
        if batchPutNum = FLAGS_bulk_number_per_index_creation then
          let code := doBatchPut p st.puts p.spaceId_ partId data
          let after := afterPut p partId code st.thriftResult
          andThen (Event.doBatchPut data :: after.1)
            (match after.2 with
            | AfterPut.proceed thriftResult =>
              scanLoop FLAGS_bulk_number_per_index_creation p partId rest
                { data := [], batchPutNum := 0, thriftResult := thriftResult,
                  puts := st.puts + 1 }
            | AfterPut.stop thriftResult => ([], ScanExit.stop thriftResult)
            | AfterPut.checkFailed => ([], ScanExit.aborted))
        else
          scanLoop FLAGS_bulk_number_per_index_creation p partId rest
            { data := data, batchPutNum := batchPutNum, thriftResult := st.thriftResult,
              puts := st.puts })

/-- The run of one call: the shared fields afterwards and the actions made. -/
structure Run where
  agg : Aggregator
  trace : List Event
  deriving DecidableEq

/-- The actions `evs`, then `finishProcess(thriftResult)` and what it does. -/
def finishWith (spaceId_ : Int) (agg : Aggregator) (evs : List Event)
    (thriftResult : cpp2.ResultCode) : Run :=
  let fin := finishProcess spaceId_ agg thriftResult
  { agg := fin.1, trace := evs ++ Event.finishProcess thriftResult :: fin.2 }

/-- The function `doIndexCreate(partId)` (lines 36-113), started with the shared
fields `agg`, under the value of the flag
`FLAGS_bulk_number_per_index_creation`. -/
def doIndexCreate (FLAGS_bulk_number_per_index_creation : Int)
    (p : IndexBaseProcessor Reader Cols) (agg : Aggregator) (partId : Int) : Run :=
  let thriftResult : cpp2.ResultCode :=
    { code := cpp2.ErrorCode.SUCCEEDED, part_id := partId, leader := none }
  let pfx := p.partPrefix partId
  let opened := p.prefixSnapshot p.spaceId_ partId pfx
  let ret := opened.1
  match (if ret ≠ kvstore.ResultCode.SUCCEEDED then none else opened.2) with
  | none => finishWith p.spaceId_ agg [] { thriftResult with code := p.to_ ret }
  | some rows =>
    let scan :=
      scanLoop FLAGS_bulk_number_per_index_creation p partId rows
        { data := [], batchPutNum := 0, thriftResult := thriftResult, puts := 0 }
    match scan.2 with
    | ScanExit.aborted => { agg := agg, trace := scan.1 }
    | ScanExit.stop r => finishWith p.spaceId_ agg scan.1 r
    | ScanExit.exhausted st =>
      if st.data ≠ [] then
        let code := doBatchPut p st.puts p.spaceId_ partId st.data
        let after := afterPut p partId code st.thriftResult
        let evs := scan.1 ++ Event.doBatchPut st.data :: after.1
        match after.2 with
        | AfterPut.proceed r => finishWith p.spaceId_ agg evs r
        | AfterPut.stop r => finishWith p.spaceId_ agg evs r
        | AfterPut.checkFailed => { agg := agg, trace := evs }
      else finishWith p.spaceId_ agg scan.1 st.thriftResult

/-- The results that `finishProcess` keeps: those whose code is not
`SUCCEEDED`, in the order they were reported. -/
def failedOf (results : List cpp2.ResultCode) : List cpp2.ResultCode :=
  results.filter (fun r => decide (r.code ≠ cpp2.ErrorCode.SUCCEEDED))

/-! ## A small processor for the closed examples -/

/-- A reader for the examples: the value itself, whose first byte is the
schema version and whose other bytes are the property values. -/
abbrev DemoReader := Bytes

/-- A processor over three-byte vertex keys `[tag, vertex, version]` and
five-byte edge keys `[src, type, rank, dst, version]`; the newest schema
version of every tag and edge type is `2`, the store opens a scan of two rows
on every partition and accepts every write. -/
def demo : IndexBaseProcessor DemoReader Unit :=
  { spaceId_ := 1
    indexId_ := 7
    indexType_ := cpp2.IndexType.TAG
    props_ := [(5, ())]
    to_ := fun c =>
      match c with
      | kvstore.ResultCode.SUCCEEDED => cpp2.ErrorCode.SUCCEEDED
      | kvstore.ResultCode.other 0 => cpp2.ErrorCode.E_LEADER_CHANGED
      | kvstore.ResultCode.other (n + 1) => cpp2.ErrorCode.other n
    collectColsVal := fun r _ => StatusOr.ok (r.drop 1)
    schemaVer := fun r => (r.headD 0).toNat
    getTagPropReader := fun val _ _ => if val = [] then none else some val
    getEdgePropReader := fun val _ _ => if val = [] then none else some val
    getNewestTagSchemaVer := fun _ _ => StatusOr.ok 2
    getNewestEdgeSchemaVer := fun _ _ => StatusOr.ok 2
    getVertexLen := 3
    getEdgeLen := 5
    partPrefix := fun partId => [UInt8.ofNat partId.toNat]
    parseTagId := fun key => (key.headD 0).toNat
    parseVertexId := fun key => ((key.drop 1).headD 0).toNat
    parseTagVersion := fun key => ((key.drop 2).headD 0).toNat
    parseEdgeType := fun key => ((key.drop 1).headD 0).toNat
    parseEdgeVersion := fun key => ((key.drop 4).headD 0).toNat
    tagIndexkey := fun partId indexId vId ver propVal =>
      [UInt8.ofNat partId.toNat, UInt8.ofNat indexId.toNat, UInt8.ofNat vId.toNat,
        UInt8.ofNat ver.toNat] ++ propVal
    edgeIndexkey := fun partId indexId edgeType ver propVal =>
      [UInt8.ofNat partId.toNat, UInt8.ofNat indexId.toNat, UInt8.ofNat edgeType.toNat,
        UInt8.ofNat ver.toNat] ++ propVal
    prefixSnapshot := fun _ _ _ =>
      (kvstore.ResultCode.SUCCEEDED, some [([5, 10, 0], [2, 65]), ([5, 11, 0], [2, 66])])
    asyncMultiPut := fun _ _ _ _ => kvstore.ResultCode.SUCCEEDED
    partLeader := fun _ _ => ErrorOr.ok (167772161, 44500) }

/-- The pair lists handed to `doBatchPut` in a run, in issue order. -/
def putsOf (trace : List Event) : List (List kvstore.KV) :=
  trace.filterMap (fun e =>
    match e with
    | Event.doBatchPut data => some data
    | _ => none)

/-- The results handed to `finishProcess` in a run, in call order. -/
def finishCalls (trace : List Event) : List cpp2.ResultCode :=
  trace.filterMap (fun e =>
    match e with
    | Event.finishProcess r => some r
    | _ => none)

/-- The pair a row contributes: `(indexKey, key)` when its transformation
succeeds, nothing otherwise. -/
def indexPair (p : IndexBaseProcessor Reader Cols) (partId : Int) (row : Bytes × Bytes) :
    Option kvstore.KV :=
  match assembleIndexKey p partId row.1 row.2 with
  | Exec.returns (StatusOr.ok indexKey) => some (indexKey, row.1)
  | _ => none

/-- What the batch boundary property compares the writes with: the
`(index key, raw key)` pairs of exactly those rows whose transformation
succeeds, in scan order. -/
def indexPairsInScanOrder (p : IndexBaseProcessor Reader Cols) (partId : Int)
    (rows : List (Bytes × Bytes)) : List kvstore.KV :=
  rows.filterMap (indexPair p partId)

/-- The transformer returns on every row, with a key or with an error: no row
makes it read through a null `reader`. -/
def TransformsAll (p : IndexBaseProcessor Reader Cols) (partId : Int)
    (rows : List (Bytes × Bytes)) : Prop :=
  ∀ row ∈ rows, assembleIndexKey p partId row.1 row.2 ≠ Exec.nullDeref

/-- The store of `demo`, except that the first write reports the store code
that `to` translates to `E_LEADER_CHANGED`; the later writes succeed. -/
def demoLeaderChange : IndexBaseProcessor DemoReader Unit :=
  { demo with
    asyncMultiPut := fun n _ _ _ =>
      if n = 0 then kvstore.ResultCode.other 0 else kvstore.ResultCode.SUCCEEDED }

/-- The store of `demo`, except that every write reports the store code that
`to` translates to `E_LEADER_CHANGED`. -/
def demoLeaderLost : IndexBaseProcessor DemoReader Unit :=
  { demo with asyncMultiPut := fun _ _ _ _ => kvstore.ResultCode.other 0 }

/-- The store of `demoLeaderLost`, which moreover cannot name the leader. -/
def demoLeaderUnknown : IndexBaseProcessor DemoReader Unit :=
  { demoLeaderLost with partLeader := fun _ _ => ErrorOr.error (kvstore.ResultCode.other 3) }

/-- The store of `demo`, except that `prefixSnapshot` returns `SUCCEEDED` and
leaves `iter` null. -/
def demoNoIterator : IndexBaseProcessor DemoReader Unit :=
  { demo with prefixSnapshot := fun _ _ _ => (kvstore.ResultCode.SUCCEEDED, none) }

/-- The state of the shared fields once a build over one partition has been
finalized by a successful report. -/
def finalized : Aggregator :=
  (finishAll 1 (Aggregator.start 1) [⟨cpp2.ErrorCode.SUCCEEDED, 1, none⟩]).1

/-- The store of `demo`, except that the first write reports a store code
that `to` translates to the storage code numbered `4`. -/
def demoWriteFails : IndexBaseProcessor DemoReader Unit :=
  { demo with
    asyncMultiPut := fun n _ _ _ =>
      if n = 0 then kvstore.ResultCode.other 5 else kvstore.ResultCode.SUCCEEDED }

/-- The processor `demo` over a scan of four rows: a row of a stale version,
a row whose key is too short, a row of another tag and an indexable row. -/
def demoMixed : IndexBaseProcessor DemoReader Unit :=
  { demo with
    prefixSnapshot := fun _ _ _ =>
      (kvstore.ResultCode.SUCCEEDED,
        some [([5, 10, 0], [1, 65]), ([5, 11], [2, 66]), ([6, 12, 0], [2, 67]),
          ([5, 13, 0], [2, 68])]) }

/-- The processor `demo` building an edge index over a scan of two edges of
type `5` that carry the same property value and join different vertices. -/
def demoEdges : IndexBaseProcessor DemoReader Unit :=
  { demo with
    indexType_ := cpp2.IndexType.EDGE
    prefixSnapshot := fun _ _ _ =>
      (kvstore.ResultCode.SUCCEEDED,
        some [([10, 5, 0, 11, 0], [2, 65]), ([12, 5, 0, 13, 0], [2, 65])]) }

/-- The processor `demo` over a scan of two rows of tag `5`: an indexable row,
then a row whose value has no reader (`getTagPropReader` returns null). -/
def demoUndecodable : IndexBaseProcessor DemoReader Unit :=
  { demo with
    prefixSnapshot := fun _ _ _ =>
      (kvstore.ResultCode.SUCCEEDED, some [([5, 10, 0], [2, 65]), ([5, 11, 0], [])]) }

/-- The local variables of `doIndexCreate(partId)` when the scan loop is
entered (lines 40-45). -/
def ScanState.init (partId : Int) : ScanState :=
  { data := [], batchPutNum := 0,
    thriftResult := { code := cpp2.ErrorCode.SUCCEEDED, part_id := partId, leader := none },
    puts := 0 }

/-! ## The join barrier -/

theorem finishAll_cons (spaceId_ : Int) (s : Aggregator) (r : cpp2.ResultCode)
    (rs : List cpp2.ResultCode) :
    finishAll spaceId_ s (r :: rs) =
      ((finishAll spaceId_ (finishProcess spaceId_ s r).1 rs).1,
        (finishProcess spaceId_ s r).2 ::
          (finishAll spaceId_ (finishProcess spaceId_ s r).1 rs).2) :=
  rfl

/-- The call that brings `callingNum_` to zero finalizes. -/
theorem finishProcess_last (spaceId_ : Int) (s : Aggregator) (r : cpp2.ResultCode)
    (h : s.callingNum_ = 1) :
    finishProcess spaceId_ s r =
      ({ codes_ := [], callingNum_ := 0, failed_codes := some (s.codes_ ++ failedOf [r]) },
        [Event.deleteSnapshot spaceId_, Event.onFinished]) := by
  by_cases hc : r.code = cpp2.ErrorCode.SUCCEEDED <;>
    simp [finishProcess, h, failedOf, hc]

/-- Any other call only records the result and counts it. -/
theorem finishProcess_not_last (spaceId_ : Int) (s : Aggregator) (r : cpp2.ResultCode)
    (h : s.callingNum_ ≠ 1) :
    finishProcess spaceId_ s r =
      ({ codes_ := s.codes_ ++ failedOf [r], callingNum_ := s.callingNum_ - 1,
         failed_codes := s.failed_codes }, []) := by
  have h1 : ¬ (s.callingNum_ - 1 = 0) := by omega
  by_cases hc : r.code = cpp2.ErrorCode.SUCCEEDED <;>
    simp [finishProcess, h1, failedOf, hc]

theorem failedOf_cons (r : cpp2.ResultCode) (rs : List cpp2.ResultCode) :
    failedOf (r :: rs) = failedOf [r] ++ failedOf rs := by
  by_cases hc : r.code = cpp2.ErrorCode.SUCCEEDED <;> simp [failedOf, List.filter_cons, hc]

theorem finishAll_events (spaceId_ : Int) :
    ∀ (rs : List cpp2.ResultCode) (s : Aggregator),
      s.callingNum_ = rs.length → rs ≠ [] →
      (finishAll spaceId_ s rs).2 =
        List.replicate (rs.length - 1) [] ++
          [[Event.deleteSnapshot spaceId_, Event.onFinished]] := by
  intro rs
  induction rs with
  | nil => intro s _ h; exact absurd rfl h
  | cons r rs ih =>
    intro s hs _
    rw [finishAll_cons]
    by_cases hrs : rs = []
    · subst hrs
      rw [finishProcess_last spaceId_ s r (by simpa using hs)]
      simp [finishAll]
    · have hlen : 0 < rs.length := List.length_pos.mpr hrs
      have hs1 : s.callingNum_ ≠ 1 := by
        simp only [List.length_cons] at hs; push_cast at hs; omega
      rw [finishProcess_not_last spaceId_ s r hs1]
      rw [ih _ (by simp only [List.length_cons] at hs; push_cast at hs; simp only; omega) hrs]
      have : (r :: rs).length - 1 = (rs.length - 1) + 1 := by
        simp only [List.length_cons]; omega
      rw [this, List.replicate_succ]
      rfl

theorem finishAll_failed_codes (spaceId_ : Int) :
    ∀ (rs : List cpp2.ResultCode) (s : Aggregator),
      s.callingNum_ = rs.length → rs ≠ [] →
      (finishAll spaceId_ s rs).1 =
        { codes_ := [], callingNum_ := 0, failed_codes := some (s.codes_ ++ failedOf rs) } := by
  intro rs
  induction rs with
  | nil => intro s _ h; exact absurd rfl h
  | cons r rs ih =>
    intro s hs _
    rw [finishAll_cons]
    by_cases hrs : rs = []
    · subst hrs
      rw [finishProcess_last spaceId_ s r (by simpa using hs)]
      simp [finishAll]
    · have hs1 : s.callingNum_ ≠ 1 := by
        have hlen : 0 < rs.length := List.length_pos.mpr hrs
        simp only [List.length_cons] at hs; push_cast at hs; omega
      rw [finishProcess_not_last spaceId_ s r hs1]
      simp only
      rw [ih _ (by simp only [List.length_cons] at hs; push_cast at hs; simp only; omega) hrs]
      simp only [List.append_assoc, ← failedOf_cons]

theorem failedOf_eq_nil (rs : List cpp2.ResultCode) :
    failedOf rs = [] ↔ ∀ r ∈ rs, r.code = cpp2.ErrorCode.SUCCEEDED := by
  simp [failedOf, List.filter_eq_nil_iff]

/-- C1. Exactly-once finalization: for every `N ≥ 1` and every sequence of `N`
partition results, starting from `callingNum_ = N` and an empty `codes_`, the
first `N - 1` calls of `finishProcess` call neither `deleteSnapshot` nor
`onFinished`, and the `N`-th call calls `deleteSnapshot` once and then
`onFinished` once. -/
theorem finishProcess_exactly_once (spaceId_ : Int) (N : Nat) (hN : 1 ≤ N)
    (results : List cpp2.ResultCode) (hlen : results.length = N) :
    (finishAll spaceId_ (Aggregator.start N) results).2 =
      List.replicate (N - 1) [] ++ [[Event.deleteSnapshot spaceId_, Event.onFinished]] := by
  subst hlen
  have hne : results ≠ [] := by
    intro h; subst h; simp at hN
  exact finishAll_events spaceId_ results (Aggregator.start results.length) rfl hne

/-- Witness of C1: three partitions, the second of which fails. -/
theorem finishProcess_exactly_once_witness :
    (finishAll 1 (Aggregator.start 3)
        [⟨cpp2.ErrorCode.SUCCEEDED, 1, none⟩, ⟨cpp2.ErrorCode.other 4, 2, none⟩,
          ⟨cpp2.ErrorCode.SUCCEEDED, 3, none⟩]).2 =
      List.replicate (3 - 1) [] ++ [[Event.deleteSnapshot 1, Event.onFinished]] :=
  finishProcess_exactly_once 1 3 (by decide) _ rfl

/-- C7. Aggregated result content: for every `N ≥ 1` and every sequence of `N`
results reported through `finishProcess` from `callingNum_ = N` and an empty
`codes_`, the list set as `failed_codes` at finalization is exactly the
reported results whose code is not `SUCCEEDED`, in report order; every report
has been counted (`callingNum_` is zero), every failing report is in the list,
and the list is empty if and only if every partition reported `SUCCEEDED`. -/
theorem failed_codes_content (spaceId_ : Int) (N : Nat) (hN : 1 ≤ N)
    (results : List cpp2.ResultCode) (hlen : results.length = N) :
    ∃ failed : List cpp2.ResultCode,
      (finishAll spaceId_ (Aggregator.start N) results).1.failed_codes = some failed ∧
      (finishAll spaceId_ (Aggregator.start N) results).1.callingNum_ = 0 ∧
      failed = results.filter (fun r => decide (r.code ≠ cpp2.ErrorCode.SUCCEEDED)) ∧
      (∀ r ∈ results, r.code ≠ cpp2.ErrorCode.SUCCEEDED → r ∈ failed) ∧
      (failed = [] ↔ ∀ r ∈ results, r.code = cpp2.ErrorCode.SUCCEEDED) := by
  subst hlen
  have hne : results ≠ [] := by
    intro h; subst h; simp at hN
  have h := finishAll_failed_codes spaceId_ results (Aggregator.start results.length) rfl hne
  refine ⟨failedOf results, ?_, ?_, rfl, ?_, failedOf_eq_nil results⟩
  · rw [h]; simp [Aggregator.start]
  · rw [h]
  · intro r hr hc
    simp [failedOf, hr, hc]

/-- Witness of C7: three partitions, of which the first and the last fail. -/
theorem failed_codes_content_witness :
    ∃ failed : List cpp2.ResultCode,
      (finishAll 1 (Aggregator.start 3)
        [⟨cpp2.ErrorCode.other 4, 1, none⟩, ⟨cpp2.ErrorCode.SUCCEEDED, 2, none⟩,
          ⟨cpp2.ErrorCode.E_LEADER_CHANGED, 3, some ⟨167772161, 44500⟩⟩]).1.failed_codes =
        some failed ∧
      failed = [⟨cpp2.ErrorCode.other 4, 1, none⟩,
        ⟨cpp2.ErrorCode.E_LEADER_CHANGED, 3, some ⟨167772161, 44500⟩⟩] :=
  match failed_codes_content 1 3 (by decide)
    [⟨cpp2.ErrorCode.other 4, 1, none⟩, ⟨cpp2.ErrorCode.SUCCEEDED, 2, none⟩,
      ⟨cpp2.ErrorCode.E_LEADER_CHANGED, 3, some ⟨167772161, 44500⟩⟩] rfl with
  | ⟨failed, hset, _, hfilter, _, _⟩ => ⟨failed, hset, by rw [hfilter]; decide⟩

/-- C8, as the code has it. A report after finalization is accepted in
silence: in every state whose `callingNum_` is zero, a further `finishProcess`
returns normally, calls neither `deleteSnapshot` nor `onFinished` and fails no
check; it leaves `failed_codes` as finalized, takes `callingNum_` to `-1` and
appends the result to `codes_` when its code is not `SUCCEEDED`. -/
theorem report_after_finalization (spaceId_ : Int) (s : Aggregator) (r : cpp2.ResultCode)
    (hdone : s.callingNum_ = 0) :
    finishProcess spaceId_ s r =
      ({ codes_ :=
            if r.code ≠ cpp2.ErrorCode.SUCCEEDED then s.codes_ ++ [r] else s.codes_,
         callingNum_ := -1, failed_codes := s.failed_codes }, []) := by
  have h1 : ¬ (s.callingNum_ - 1 = 0) := by omega
  have h2 : s.callingNum_ - 1 = -1 := by omega
  simp [finishProcess, h1, h2]

/-- Witness of C8 as amended: a failing report into the finalized state. -/
theorem report_after_finalization_witness :
    finishProcess 1 finalized ⟨cpp2.ErrorCode.other 4, 2, none⟩ =
      ({ codes_ := [⟨cpp2.ErrorCode.other 4, 2, none⟩], callingNum_ := -1,
         failed_codes := some [] }, []) :=
  report_after_finalization 1 finalized ⟨cpp2.ErrorCode.other 4, 2, none⟩ rfl

/-- C8, as stated, fails: after a build over one partition has been finalized
(`callingNum_` is zero, `failed_codes` is set), one more `finishProcess` makes no
call at all and no check fails: nothing signals the late report. -/
theorem report_after_finalization_counterexample :
    finalized.callingNum_ = 0 ∧ finalized.failed_codes = some [] ∧
      Event.checkFailed ∉ (finishProcess 1 finalized ⟨cpp2.ErrorCode.other 4, 2, none⟩).2 ∧
      (finishProcess 1 finalized ⟨cpp2.ErrorCode.other 4, 2, none⟩).2 = [] := by
  decide

/-! ## The row transformers -/

theorem assembleVertexProps_stale (p : IndexBaseProcessor Reader Cols) (spaceId partId : Int)
    (key : Bytes) (tagId : Int) (r : Reader) (newest : Int)
    (hn : p.getNewestTagSchemaVer spaceId tagId = StatusOr.ok newest)
    (hne : newest ≠ p.schemaVer r) :
    ∀ props : List (Int × Cols),
      assembleVertexProps p spaceId partId key tagId (some r) props =
        Exec.returns (StatusOr.error "Not is newly version by vertex" []) := by
  intro props
  induction props with
  | nil => rfl
  | cons prop rest ih =>
    simp only [assembleVertexProps, hn]
    by_cases ht : tagId = prop.1
    · rw [if_pos ht, if_neg hne]; exact ih
    · rw [if_neg ht]; exact ih

theorem assembleEdgeProps_stale (p : IndexBaseProcessor Reader Cols) (spaceId partId : Int)
    (key : Bytes) (edgeType : Int) (r : Reader) (newest : Int)
    (hn : p.getNewestEdgeSchemaVer spaceId edgeType = StatusOr.ok newest)
    (hne : newest ≠ p.schemaVer r) :
    ∀ props : List (Int × Cols),
      assembleEdgeProps p spaceId partId key edgeType (some r) props =
        Exec.returns (StatusOr.error "Not is newly version by edge" []) := by
  intro props
  induction props with
  | nil => rfl
  | cons prop rest ih =>
    simp only [assembleEdgeProps, hn]
    by_cases ht : edgeType = prop.1
    · rw [if_pos ht, if_neg hne]; exact ih
    · rw [if_neg ht]; exact ih

/-- C4. Version gating: when the schema version read from the row
(`reader->schemaVer()`) differs from the newest schema version of the row's
tag id (resp. edge type), `assembleVertexIndexKey` (resp.
`assembleEdgeIndexKey`) returns an error, hence no index key, whatever the key,
the value and `props_` are. -/
theorem version_gating (p : IndexBaseProcessor Reader Cols) (spaceId partId : Int)
    (key val : Bytes) (r : Reader) (newest : Int) (hne : p.schemaVer r ≠ newest) :
    (p.getTagPropReader val spaceId (p.parseTagId key) = some r →
      p.getNewestTagSchemaVer spaceId (p.parseTagId key) = StatusOr.ok newest →
      ∃ fmt args, assembleVertexIndexKey p spaceId partId key val =
        Exec.returns (StatusOr.error fmt args)) ∧
    (p.getEdgePropReader val spaceId (p.parseEdgeType key) = some r →
      p.getNewestEdgeSchemaVer spaceId (p.parseEdgeType key) = StatusOr.ok newest →
      ∃ fmt args, assembleEdgeIndexKey p spaceId partId key val =
        Exec.returns (StatusOr.error fmt args)) := by
  constructor
  · intro hr hn
    by_cases hlen : (key.length : Int) ≠ p.getVertexLen
    · exact ⟨"Skip this row", [], by simp [assembleVertexIndexKey, hlen]⟩
    · refine ⟨"Not is newly version by vertex", [], ?_⟩
      simp only [assembleVertexIndexKey, hlen, if_false, hr]
      exact assembleVertexProps_stale p spaceId partId key _ r newest hn (Ne.symm hne) _
  · intro hr hn
    by_cases hlen : (key.length : Int) ≠ p.getEdgeLen
    · exact ⟨"Skip this row", [], by simp [assembleEdgeIndexKey, hlen]⟩
    · refine ⟨"Not is newly version by edge", [], ?_⟩
      simp only [assembleEdgeIndexKey, hlen, if_false, hr]
      exact assembleEdgeProps_stale p spaceId partId key _ r newest hn (Ne.symm hne) _

/-- Witness of C4: a vertex row and an edge row written under version `1`
while the newest version is `2`. -/
theorem version_gating_witness :
    (∃ fmt args, assembleVertexIndexKey demo 1 3 [5, 10, 0] [1, 65] =
        Exec.returns (StatusOr.error fmt args)) ∧
    (∃ fmt args, assembleEdgeIndexKey demo 1 3 [10, 5, 0, 11, 0] [1, 65] =
        Exec.returns (StatusOr.error fmt args)) :=
  ⟨(version_gating demo 1 3 [5, 10, 0] [1, 65] [1, 65] 2 (by decide)).1 rfl rfl,
    (version_gating demo 1 3 [10, 5, 0, 11, 0] [1, 65] [1, 65] 2 (by decide)).2 rfl rfl⟩

theorem assembleVertexProps_first (p : IndexBaseProcessor Reader Cols) (spaceId partId : Int)
    (key : Bytes) (tagId : Int) (r : Reader) (prop : Int × Cols) (propVal : Bytes)
    (hn : p.getNewestTagSchemaVer spaceId tagId = StatusOr.ok (p.schemaVer r))
    (hcols : p.collectColsVal r prop.2 = StatusOr.ok propVal) :
    ∀ props : List (Int × Cols),
      props.find? (fun q => decide (tagId = q.1)) = some prop →
      assembleVertexProps p spaceId partId key tagId (some r) props =
        Exec.returns (StatusOr.ok
          (p.tagIndexkey partId p.indexId_ (p.parseVertexId key) (p.parseTagVersion key)
            propVal)) := by
  intro props
  induction props with
  | nil => intro h; simp at h
  | cons q rest ih =>
    intro h
    by_cases ht : tagId = q.1
    · have hq : q = prop := by simpa [List.find?_cons, ht] using h
      subst hq
      simp only [assembleVertexProps, hn]
      rw [if_pos ht, if_pos trivial, hcols]
    · have hrest : rest.find? (fun q => decide (tagId = q.1)) = some prop := by
        simpa [List.find?_cons, ht] using h
      simp only [assembleVertexProps, hn]
      rw [if_neg ht]; exact ih hrest

theorem assembleEdgeProps_first (p : IndexBaseProcessor Reader Cols) (spaceId partId : Int)
    (key : Bytes) (edgeType : Int) (r : Reader) (prop : Int × Cols) (propVal : Bytes)
    (hn : p.getNewestEdgeSchemaVer spaceId edgeType = StatusOr.ok (p.schemaVer r))
    (hcols : p.collectColsVal r prop.2 = StatusOr.ok propVal) :
    ∀ props : List (Int × Cols),
      props.find? (fun q => decide (edgeType = q.1)) = some prop →
      assembleEdgeProps p spaceId partId key edgeType (some r) props =
        Exec.returns (StatusOr.ok
          (p.edgeIndexkey partId p.indexId_ edgeType (p.parseEdgeVersion key) propVal)) := by
  intro props
  induction props with
  | nil => intro h; simp at h
  | cons q rest ih =>
    intro h
    by_cases ht : edgeType = q.1
    · have hq : q = prop := by simpa [List.find?_cons, ht] using h
      subst hq
      simp only [assembleEdgeProps, hn]
      rw [if_pos ht, if_pos trivial, hcols]
    · have hrest : rest.find? (fun q => decide (edgeType = q.1)) = some prop := by
        simpa [List.find?_cons, ht] using h
      simp only [assembleEdgeProps, hn]
      rw [if_neg ht]; exact ih hrest

/-- C5. Completeness and determinism: for a vertex row whose key has length
`getVertexLen()`, whose reader `r` reports the newest schema version of the
row's tag, and for which `collectColsVal` succeeds with `propVal` on the first
pair `prop` of `props_` whose id is the row's tag id, `assembleVertexIndexKey`
returns exactly `tagIndexkey(partId, indexId_, parseVertexId(key),
parseTagVersion(key), propVal)`; symmetrically `assembleEdgeIndexKey` returns
`edgeIndexkey(partId, indexId_, parseEdgeType(key), parseEdgeVersion(key),
propVal)`. The key is a function of these inputs only. -/
theorem assemble_complete (p : IndexBaseProcessor Reader Cols) (spaceId partId : Int)
    (key val : Bytes) (r : Reader) (prop : Int × Cols) (propVal : Bytes)
    (hcols : p.collectColsVal r prop.2 = StatusOr.ok propVal) :
    ((key.length : Int) = p.getVertexLen →
      p.getTagPropReader val spaceId (p.parseTagId key) = some r →
      p.getNewestTagSchemaVer spaceId (p.parseTagId key) = StatusOr.ok (p.schemaVer r) →
      p.props_.find? (fun q => decide (p.parseTagId key = q.1)) = some prop →
      assembleVertexIndexKey p spaceId partId key val =
        Exec.returns (StatusOr.ok
          (p.tagIndexkey partId p.indexId_ (p.parseVertexId key) (p.parseTagVersion key)
            propVal))) ∧
    ((key.length : Int) = p.getEdgeLen →
      p.getEdgePropReader val spaceId (p.parseEdgeType key) = some r →
      p.getNewestEdgeSchemaVer spaceId (p.parseEdgeType key) = StatusOr.ok (p.schemaVer r) →
      p.props_.find? (fun q => decide (p.parseEdgeType key = q.1)) = some prop →
      assembleEdgeIndexKey p spaceId partId key val =
        Exec.returns (StatusOr.ok
          (p.edgeIndexkey partId p.indexId_ (p.parseEdgeType key) (p.parseEdgeVersion key)
            propVal))) := by
  constructor
  · intro hlen hr hn hfirst
    simp only [assembleVertexIndexKey, hlen, ne_eq, not_true_eq_false, if_false, hr]
    exact assembleVertexProps_first p spaceId partId key _ r prop propVal hn hcols _ hfirst
  · intro hlen hr hn hfirst
    simp only [assembleEdgeIndexKey, hlen, ne_eq, not_true_eq_false, if_false, hr]
    exact assembleEdgeProps_first p spaceId partId key _ r prop propVal hn hcols _ hfirst

/-- Witness of C5: a vertex row and an edge row at the newest version `2`. -/
theorem assemble_complete_witness :
    assembleVertexIndexKey demo 1 3 [5, 10, 0] [2, 65] =
        Exec.returns (StatusOr.ok (demo.tagIndexkey 3 7 10 0 [65])) ∧
    assembleEdgeIndexKey demo 1 3 [10, 5, 0, 11, 4] [2, 65] =
        Exec.returns (StatusOr.ok (demo.edgeIndexkey 3 7 5 4 [65])) :=
  ⟨(assemble_complete demo 1 3 [5, 10, 0] [2, 65] [2, 65] (5, ()) [65] rfl).1
      rfl rfl rfl rfl,
    (assemble_complete demo 1 3 [10, 5, 0, 11, 4] [2, 65] [2, 65] (5, ()) [65] rfl).2
      rfl rfl rfl rfl⟩

/-! ## The scan of one partition -/

theorem putsOf_append (a b : List Event) : putsOf (a ++ b) = putsOf a ++ putsOf b := by
  simp [putsOf, List.filterMap_append]

theorem finishCalls_append (a b : List Event) :
    finishCalls (a ++ b) = finishCalls a ++ finishCalls b := by
  simp [finishCalls, List.filterMap_append]

/-- A row whose transformation returns an error is skipped (lines 65-67). -/
theorem scanLoop_cons_error (T : Int) (p : IndexBaseProcessor Reader Cols) (partId : Int)
    (row : Bytes × Bytes) (rest : List (Bytes × Bytes)) (st : ScanState)
    (fmt : String) (args : List Int)
    (h : assembleIndexKey p partId row.1 row.2 = Exec.returns (StatusOr.error fmt args)) :
    scanLoop T p partId (row :: rest) st =
      andThen [Event.iterRead row.1 row.2, Event.assemble row.1 row.2]
        (scanLoop T p partId rest st) := by
  simp only [scanLoop, h]

/-- A row on which the transformer reads through a null `reader`. -/
theorem scanLoop_cons_null (T : Int) (p : IndexBaseProcessor Reader Cols) (partId : Int)
    (row : Bytes × Bytes) (rest : List (Bytes × Bytes)) (st : ScanState)
    (h : assembleIndexKey p partId row.1 row.2 = Exec.nullDeref) :
    scanLoop T p partId (row :: rest) st =
      ([Event.iterRead row.1 row.2, Event.assemble row.1 row.2, Event.nullDeref],
        ScanExit.aborted) := by
  simp only [scanLoop, h, andThen, List.cons_append, List.nil_append]

/-- A transformed row that does not fill the batch (line 70 is false). -/
theorem scanLoop_cons_keep (T : Int) (p : IndexBaseProcessor Reader Cols) (partId : Int)
    (row : Bytes × Bytes) (rest : List (Bytes × Bytes)) (st : ScanState) (indexKey : Bytes)
    (h : assembleIndexKey p partId row.1 row.2 = Exec.returns (StatusOr.ok indexKey))
    (hT : wrapInt32 (st.batchPutNum + 1) ≠ T) :
    scanLoop T p partId (row :: rest) st =
      andThen [Event.iterRead row.1 row.2, Event.assemble row.1 row.2]
        (scanLoop T p partId rest
          { data := st.data ++ [(indexKey, row.1)],
            batchPutNum := wrapInt32 (st.batchPutNum + 1),
            thriftResult := st.thriftResult, puts := st.puts }) := by
  simp only [scanLoop, h, if_neg hT]

/-- A transformed row that fills the batch (lines 70-86). -/
theorem scanLoop_cons_put (T : Int) (p : IndexBaseProcessor Reader Cols) (partId : Int)
    (row : Bytes × Bytes) (rest : List (Bytes × Bytes)) (st : ScanState) (indexKey : Bytes)
    (h : assembleIndexKey p partId row.1 row.2 = Exec.returns (StatusOr.ok indexKey))
    (hT : wrapInt32 (st.batchPutNum + 1) = T) :
    scanLoop T p partId (row :: rest) st =
      andThen [Event.iterRead row.1 row.2, Event.assemble row.1 row.2]
        (andThen
          (Event.doBatchPut (st.data ++ [(indexKey, row.1)]) ::
            (afterPut p partId
              (doBatchPut p st.puts p.spaceId_ partId (st.data ++ [(indexKey, row.1)]))
              st.thriftResult).1)
          (match (afterPut p partId
              (doBatchPut p st.puts p.spaceId_ partId (st.data ++ [(indexKey, row.1)]))
              st.thriftResult).2 with
          | AfterPut.proceed thriftResult =>
            scanLoop T p partId rest
              { data := [], batchPutNum := 0, thriftResult := thriftResult,
                puts := st.puts + 1 }
          | AfterPut.stop thriftResult => ([], ScanExit.stop thriftResult)
          | AfterPut.checkFailed => ([], ScanExit.aborted))) := by
  simp only [scanLoop, h, if_pos hT]

theorem afterPut_succeeded (p : IndexBaseProcessor Reader Cols) (partId : Int)
    (thriftResult : cpp2.ResultCode) :
    afterPut p partId cpp2.ErrorCode.SUCCEEDED thriftResult =
      ([], AfterPut.proceed thriftResult) := by
  simp [afterPut]

theorem indexPair_ok (p : IndexBaseProcessor Reader Cols) (partId : Int)
    (row : Bytes × Bytes) (indexKey : Bytes)
    (h : assembleIndexKey p partId row.1 row.2 = Exec.returns (StatusOr.ok indexKey)) :
    indexPair p partId row = some (indexKey, row.1) := by
  simp only [indexPair, h]

theorem indexPair_error (p : IndexBaseProcessor Reader Cols) (partId : Int)
    (row : Bytes × Bytes) (fmt : String) (args : List Int)
    (h : assembleIndexKey p partId row.1 row.2 = Exec.returns (StatusOr.error fmt args)) :
    indexPair p partId row = none := by
  simp only [indexPair, h]

/-- When every write succeeds and the transformer returns on every row, the
loop runs to the end of the scan, and what has been put so far followed by the
pending batch is what was pending before followed by the pairs of the rows. -/
theorem scanLoop_all_succeed (T : Int) (p : IndexBaseProcessor Reader Cols) (partId : Int)
    (hput : ∀ n data, doBatchPut p n p.spaceId_ partId data = cpp2.ErrorCode.SUCCEEDED) :
    ∀ (rows : List (Bytes × Bytes)) (st : ScanState), TransformsAll p partId rows →
      ∃ st' : ScanState,
        (scanLoop T p partId rows st).2 = ScanExit.exhausted st' ∧
        st'.thriftResult = st.thriftResult ∧
        (putsOf (scanLoop T p partId rows st).1).flatten ++ st'.data =
          st.data ++ indexPairsInScanOrder p partId rows := by
  intro rows
  induction rows with
  | nil =>
    intro st _
    exact ⟨st, rfl, rfl, by simp [scanLoop, putsOf, indexPairsInScanOrder]⟩
  | cons row rest ih =>
    intro st hrows
    have hrest : TransformsAll p partId rest := fun r hr => hrows r (List.mem_cons_of_mem _ hr)
    cases h : assembleIndexKey p partId row.1 row.2 with
    | nullDeref => exact absurd h (hrows row (List.mem_cons_self _ _))
    | returns status =>
      cases status with
      | error fmt args =>
        obtain ⟨st', hexit, hres, hcat⟩ := ih st hrest
        refine ⟨st', ?_, hres, ?_⟩
        · rw [scanLoop_cons_error T p partId row rest st fmt args h]; exact hexit
        · rw [scanLoop_cons_error T p partId row rest st fmt args h]
          simp only [andThen, putsOf_append, indexPairsInScanOrder,
            List.filterMap_cons, indexPair_error p partId row fmt args h]
          simpa [putsOf, indexPairsInScanOrder] using hcat
      | ok indexKey =>
        by_cases hT : wrapInt32 (st.batchPutNum + 1) = T
        · obtain ⟨st', hexit, hres, hcat⟩ := ih
            { data := [], batchPutNum := 0, thriftResult := st.thriftResult,
              puts := st.puts + 1 } hrest
          rw [scanLoop_cons_put T p partId row rest st indexKey h hT, hput,
            afterPut_succeeded]
          refine ⟨st', hexit, hres, ?_⟩
          simp only [andThen, putsOf_append, indexPairsInScanOrder,
            List.filterMap_cons, indexPair_ok p partId row indexKey h]
          simp only [List.nil_append, indexPairsInScanOrder] at hcat
          simp [putsOf, ← hcat]
        · obtain ⟨st', hexit, hres, hcat⟩ := ih
            { data := st.data ++ [(indexKey, row.1)],
              batchPutNum := wrapInt32 (st.batchPutNum + 1),
              thriftResult := st.thriftResult, puts := st.puts } hrest
          rw [scanLoop_cons_keep T p partId row rest st indexKey h hT]
          refine ⟨st', hexit, hres, ?_⟩
          simp only [andThen, putsOf_append, indexPairsInScanOrder,
            List.filterMap_cons, indexPair_ok p partId row indexKey h]
          simp only [indexPairsInScanOrder] at hcat
          simpa [putsOf] using hcat

theorem putsOf_finishWith (spaceId_ : Int) (agg : Aggregator) (evs : List Event)
    (r : cpp2.ResultCode) : putsOf (finishWith spaceId_ agg evs r).trace = putsOf evs := by
  have hfin : putsOf (finishProcess spaceId_ agg r).2 = [] := by
    unfold finishProcess
    by_cases h : agg.callingNum_ - 1 = 0 <;> simp [h, putsOf]
  simp [finishWith, putsOf_append, putsOf, hfin]
  simpa [putsOf] using hfin

/-- With an open scan, successful writes and a transformer that returns on
every row, the writes of a run, put end to end, are the pairs of the rows. -/
theorem doIndexCreate_written (T : Int) (p : IndexBaseProcessor Reader Cols)
    (agg : Aggregator) (partId : Int) (rows : List (Bytes × Bytes))
    (hopen : p.prefixSnapshot p.spaceId_ partId (p.partPrefix partId) =
      (kvstore.ResultCode.SUCCEEDED, some rows))
    (hput : ∀ n data, doBatchPut p n p.spaceId_ partId data = cpp2.ErrorCode.SUCCEEDED)
    (hrows : TransformsAll p partId rows) :
    (putsOf (doIndexCreate T p agg partId).trace).flatten =
      indexPairsInScanOrder p partId rows := by
  obtain ⟨st', hexit, _, hcat⟩ := scanLoop_all_succeed T p partId hput rows
    { data := [], batchPutNum := 0,
      thriftResult := { code := cpp2.ErrorCode.SUCCEEDED, part_id := partId, leader := none },
      puts := 0 } hrows
  simp only [List.nil_append] at hcat
  simp only [doIndexCreate, hopen, ne_eq, not_true_eq_false, if_false, hexit]
  by_cases hdata : st'.data = []
  · simp only [hdata, not_true_eq_false, if_false, putsOf_finishWith]
    simpa [hdata] using hcat
  · simp only [hdata, not_false_eq_true, if_true, hput, afterPut_succeeded,
      putsOf_finishWith, putsOf_append]
    simpa [putsOf] using hcat

/-- Batch boundaries on a scan the transformer returns on: for every threshold
`T` with `1 ≤ T ≤ row count`, when the scan opens, every `doBatchPut` returns
`SUCCEEDED` and no row makes the transformer read through a null `reader`, the
pair lists passed to `doBatchPut`, put end to end in issue order, are the
`(index key, raw key)` pairs of exactly the rows whose transformation succeeds,
in scan order; hence they are the pairs written when `T` is the row count. -/
theorem batch_boundary (T : Int) (p : IndexBaseProcessor Reader Cols)
    (agg : Aggregator) (partId : Int) (rows : List (Bytes × Bytes))
    (hT1 : 1 ≤ T) (hT2 : T ≤ rows.length)
    (hopen : p.prefixSnapshot p.spaceId_ partId (p.partPrefix partId) =
      (kvstore.ResultCode.SUCCEEDED, some rows))
    (hput : ∀ n data, doBatchPut p n p.spaceId_ partId data = cpp2.ErrorCode.SUCCEEDED)
    (hrows : TransformsAll p partId rows) :
    (putsOf (doIndexCreate T p agg partId).trace).flatten =
        indexPairsInScanOrder p partId rows ∧
      (putsOf (doIndexCreate T p agg partId).trace).flatten =
        (putsOf (doIndexCreate rows.length p agg partId).trace).flatten := by
  have _ := hT1
  have _ := hT2
  rw [doIndexCreate_written T p agg partId rows hopen hput hrows,
    doIndexCreate_written rows.length p agg partId rows hopen hput hrows]
  exact ⟨rfl, rfl⟩

/-- An instance: the two rows of `demo` written one per put (`T = 1`). -/
theorem batch_boundary_witness :
    (putsOf (doIndexCreate 1 demo (Aggregator.start 1) 3).trace).flatten =
        [([3, 7, 10, 0, 65], [5, 10, 0]), ([3, 7, 11, 0, 66], [5, 11, 0])] ∧
      putsOf (doIndexCreate 1 demo (Aggregator.start 1) 3).trace =
        [[([3, 7, 10, 0, 65], [5, 10, 0])], [([3, 7, 11, 0, 66], [5, 11, 0])]] ∧
      putsOf (doIndexCreate 2 demo (Aggregator.start 1) 3).trace =
        [[([3, 7, 10, 0, 65], [5, 10, 0]), ([3, 7, 11, 0, 66], [5, 11, 0])]] :=
  ⟨(batch_boundary 1 demo (Aggregator.start 1) 3
      [([5, 10, 0], [2, 65]), ([5, 11, 0], [2, 66])] (by decide) (by decide) rfl
      (fun _ _ => rfl) (by unfold TransformsAll; decide)).1.trans (by decide),
    by decide, by decide⟩

/-- When `partLeader` answers, the block after a put makes no
`finishProcess` call of its own, passes its check and keeps `part_id`. -/
theorem afterPut_leader_known (p : IndexBaseProcessor Reader Cols) (partId : Int)
    (code : cpp2.ErrorCode) (thriftResult : cpp2.ResultCode) (addr : Int × Int)
    (hleader : p.partLeader p.spaceId_ partId = ErrorOr.ok addr) :
    finishCalls (afterPut p partId code thriftResult).1 = [] ∧
      ((∃ r, (afterPut p partId code thriftResult).2 = AfterPut.proceed r ∧
          r.part_id = thriftResult.part_id) ∨
        (∃ r, (afterPut p partId code thriftResult).2 = AfterPut.stop r ∧
          r.part_id = thriftResult.part_id)) := by
  unfold afterPut
  by_cases h1 : code = cpp2.ErrorCode.E_LEADER_CHANGED
  · simp [h1, hleader, finishCalls]
  · by_cases h2 : code = cpp2.ErrorCode.SUCCEEDED <;> simp [h1, h2, finishCalls]

/-- When `partLeader` answers and the transformer returns on every row, the
loop makes no `finishProcess` call of its own and is left either at the end of
the scan or at `finishProcess(thriftResult); return;`, with `part_id` kept. -/
theorem scanLoop_completes (T : Int) (p : IndexBaseProcessor Reader Cols) (partId : Int)
    (addr : Int × Int) (hleader : p.partLeader p.spaceId_ partId = ErrorOr.ok addr) :
    ∀ (rows : List (Bytes × Bytes)) (st : ScanState), TransformsAll p partId rows →
      finishCalls (scanLoop T p partId rows st).1 = [] ∧
        ((∃ st', (scanLoop T p partId rows st).2 = ScanExit.exhausted st' ∧
            st'.thriftResult.part_id = st.thriftResult.part_id) ∨
          (∃ r, (scanLoop T p partId rows st).2 = ScanExit.stop r ∧
            r.part_id = st.thriftResult.part_id)) := by
  intro rows
  induction rows with
  | nil =>
    intro st _
    exact ⟨rfl, Or.inl ⟨st, rfl, rfl⟩⟩
  | cons row rest ih =>
    intro st hrows
    have hrest : TransformsAll p partId rest := fun r hr => hrows r (List.mem_cons_of_mem _ hr)
    cases h : assembleIndexKey p partId row.1 row.2 with
    | nullDeref => exact absurd h (hrows row (List.mem_cons_self _ _))
    | returns status =>
      cases status with
      | error fmt args =>
        rw [scanLoop_cons_error T p partId row rest st fmt args h]
        obtain ⟨hcalls, hexit⟩ := ih st hrest
        refine ⟨?_, hexit⟩
        simp only [andThen, finishCalls_append, hcalls]
        rfl
      | ok indexKey =>
        by_cases hT : wrapInt32 (st.batchPutNum + 1) = T
        · rw [scanLoop_cons_put T p partId row rest st indexKey h hT]
          obtain ⟨hcalls, hafter⟩ := afterPut_leader_known p partId
            (doBatchPut p st.puts p.spaceId_ partId (st.data ++ [(indexKey, row.1)]))
            st.thriftResult addr hleader
          have hhead : ∀ evs : List Event, finishCalls evs = [] →
              finishCalls
                ([Event.iterRead row.1 row.2, Event.assemble row.1 row.2] ++
                  (Event.doBatchPut (st.data ++ [(indexKey, row.1)]) ::
                    (afterPut p partId
                      (doBatchPut p st.puts p.spaceId_ partId
                        (st.data ++ [(indexKey, row.1)]))
                      st.thriftResult).1 ++ evs)) = [] := by
            intro evs hevs
            change finishCalls
              ((afterPut p partId
                  (doBatchPut p st.puts p.spaceId_ partId (st.data ++ [(indexKey, row.1)]))
                  st.thriftResult).1 ++ evs) = []
            rw [finishCalls_append, hcalls, hevs]
            rfl
          rcases hafter with ⟨r, hr, hpart⟩ | ⟨r, hr, hpart⟩
          · obtain ⟨hcalls2, hexit⟩ := ih
              { data := [], batchPutNum := 0, thriftResult := r, puts := st.puts + 1 } hrest
            rw [hr]
            simp only [andThen]
            refine ⟨hhead _ hcalls2, ?_⟩
            simpa only [hpart] using hexit
          · rw [hr]
            simp only [andThen]
            exact ⟨hhead [] rfl, Or.inr ⟨r, rfl, hpart⟩⟩
        · rw [scanLoop_cons_keep T p partId row rest st indexKey h hT]
          obtain ⟨hcalls, hexit⟩ := ih
            { data := st.data ++ [(indexKey, row.1)],
              batchPutNum := wrapInt32 (st.batchPutNum + 1),
              thriftResult := st.thriftResult, puts := st.puts } hrest
          refine ⟨?_, hexit⟩
          simp only [andThen, finishCalls_append, hcalls]
          rfl

/-- What `finishProcess` does after the lock holds no `finishProcess` call. -/
theorem finishCalls_finishProcess (spaceId_ : Int) (agg : Aggregator) (r : cpp2.ResultCode) :
    finishCalls (finishProcess spaceId_ agg r).2 = [] := by
  unfold finishProcess
  by_cases h : agg.callingNum_ - 1 = 0 <;> simp [h, finishCalls]

/-- A run that ends in `finishWith` calls `finishProcess` once, last. -/
theorem finishWith_once (spaceId_ : Int) (agg : Aggregator) (evs : List Event)
    (r : cpp2.ResultCode) (hevs : finishCalls evs = []) :
    (finishWith spaceId_ agg evs r).trace =
        evs ++ Event.finishProcess r :: (finishProcess spaceId_ agg r).2 ∧
      (finishWith spaceId_ agg evs r).agg = (finishProcess spaceId_ agg r).1 ∧
      finishCalls (finishWith spaceId_ agg evs r).trace = [r] := by
  refine ⟨rfl, rfl, ?_⟩
  simp only [finishWith]
  rw [finishCalls_append, hevs]
  change r :: finishCalls (finishProcess spaceId_ agg r).2 = [r]
  rw [finishCalls_finishProcess]

/-- C9, as the code has it. Exactly one result per partition: for every
outcome of opening the scan, every sequence of rows on which the transformer
returns and every sequence of write outcomes, provided `partLeader` answers
(the `CHECK` on lines 75 and 94), one run of `doIndexCreate(partId)` calls
`finishProcess` exactly once, as its last action (what follows in the run is
what `finishProcess` itself does), with a result whose `part_id` is
`partId`. -/
theorem doIndexCreate_reports_once (T : Int) (p : IndexBaseProcessor Reader Cols)
    (agg : Aggregator) (partId : Int) (addr : Int × Int)
    (hleader : p.partLeader p.spaceId_ partId = ErrorOr.ok addr)
    (hrows : ∀ rows, (p.prefixSnapshot p.spaceId_ partId (p.partPrefix partId)).2 = some rows →
      TransformsAll p partId rows) :
    ∃ (pre : List Event) (r : cpp2.ResultCode),
      (doIndexCreate T p agg partId).trace =
          pre ++ Event.finishProcess r :: (finishProcess p.spaceId_ agg r).2 ∧
        (doIndexCreate T p agg partId).agg = (finishProcess p.spaceId_ agg r).1 ∧
        finishCalls pre = [] ∧
        finishCalls (doIndexCreate T p agg partId).trace = [r] ∧
        r.part_id = partId := by
  have key : ∀ (pre : List Event) (r : cpp2.ResultCode), finishCalls pre = [] →
      r.part_id = partId →
      doIndexCreate T p agg partId = finishWith p.spaceId_ agg pre r →
      ∃ (pre : List Event) (r : cpp2.ResultCode),
        (doIndexCreate T p agg partId).trace =
            pre ++ Event.finishProcess r :: (finishProcess p.spaceId_ agg r).2 ∧
          (doIndexCreate T p agg partId).agg = (finishProcess p.spaceId_ agg r).1 ∧
          finishCalls pre = [] ∧
          finishCalls (doIndexCreate T p agg partId).trace = [r] ∧
          r.part_id = partId := by
    intro pre r hpre hpart hrun
    obtain ⟨h1, h2, h3⟩ := finishWith_once p.spaceId_ agg pre r hpre
    exact ⟨pre, r, by rw [hrun]; exact h1, by rw [hrun]; exact h2, hpre,
      by rw [hrun]; exact h3, hpart⟩
  cases hopen : (if (p.prefixSnapshot p.spaceId_ partId (p.partPrefix partId)).1 ≠
      kvstore.ResultCode.SUCCEEDED then none
      else (p.prefixSnapshot p.spaceId_ partId (p.partPrefix partId)).2) with
  | none =>
    exact key []
      { code := p.to_ (p.prefixSnapshot p.spaceId_ partId (p.partPrefix partId)).1,
        part_id := partId, leader := none }
      rfl rfl (by simp only [doIndexCreate, hopen])
  | some rows =>
    have hiter : (p.prefixSnapshot p.spaceId_ partId (p.partPrefix partId)).2 = some rows := by
      by_cases hret : (p.prefixSnapshot p.spaceId_ partId (p.partPrefix partId)).1 ≠
          kvstore.ResultCode.SUCCEEDED
      · rw [if_pos hret] at hopen; exact absurd hopen (by simp)
      · rw [if_neg hret] at hopen; exact hopen
    obtain ⟨hcalls, hexit⟩ := scanLoop_completes T p partId addr hleader rows
      { data := [], batchPutNum := 0,
        thriftResult := { code := cpp2.ErrorCode.SUCCEEDED, part_id := partId, leader := none },
        puts := 0 } (hrows rows hiter)
    rcases hexit with ⟨st', hst, hpart⟩ | ⟨r, hr, hpart⟩
    · by_cases hdata : st'.data = []
      · exact key _ _ hcalls hpart (by simp only [doIndexCreate, hopen, hst, hdata]; rfl)
      · obtain ⟨hcalls2, hafter⟩ := afterPut_leader_known p partId
          (doBatchPut p st'.puts p.spaceId_ partId st'.data) st'.thriftResult addr hleader
        have hpre : finishCalls
            ((scanLoop T p partId rows
                { data := [], batchPutNum := 0,
                  thriftResult :=
                    { code := cpp2.ErrorCode.SUCCEEDED, part_id := partId, leader := none },
                  puts := 0 }).1 ++
              Event.doBatchPut st'.data ::
                (afterPut p partId (doBatchPut p st'.puts p.spaceId_ partId st'.data)
                  st'.thriftResult).1) = [] := by
          rw [finishCalls_append, hcalls]
          exact hcalls2
        rcases hafter with ⟨r, hr, hpart2⟩ | ⟨r, hr, hpart2⟩
        · exact key _ r hpre (hpart2.trans hpart)
            (by simp only [doIndexCreate, hopen, hst, hr]; rw [if_pos hdata])
        · exact key _ r hpre (hpart2.trans hpart)
            (by simp only [doIndexCreate, hopen, hst, hr]; rw [if_pos hdata])
    · exact key _ r hcalls hpart (by simp only [doIndexCreate, hopen, hr])

/-- Witness of C9 as amended: the run of `demoLeaderChange`, whose first write
loses the leadership. -/
theorem doIndexCreate_reports_once_witness :
    ∃ (pre : List Event) (r : cpp2.ResultCode),
      (doIndexCreate 1 demoLeaderChange (Aggregator.start 1) 3).trace =
          pre ++ Event.finishProcess r ::
            (finishProcess demoLeaderChange.spaceId_ (Aggregator.start 1) r).2 ∧
        (doIndexCreate 1 demoLeaderChange (Aggregator.start 1) 3).agg =
          (finishProcess demoLeaderChange.spaceId_ (Aggregator.start 1) r).1 ∧
        finishCalls pre = [] ∧
        finishCalls (doIndexCreate 1 demoLeaderChange (Aggregator.start 1) 3).trace = [r] ∧
        r.part_id = 3 :=
  doIndexCreate_reports_once 1 demoLeaderChange (Aggregator.start 1) 3 (167772161, 44500) rfl
    (fun rows hrows => by
      have h : rows = [([5, 10, 0], [2, 65]), ([5, 11, 0], [2, 66])] :=
        (Option.some.inj hrows).symm
      subst h
      unfold TransformsAll
      decide)

/-- C9, as stated, fails: when the only write reports `E_LEADER_CHANGED` and
`partLeader` does not answer, the `CHECK` stops the run and `finishProcess` is
never called. -/
theorem doIndexCreate_reports_once_counterexample :
    (doIndexCreate 2 demoLeaderUnknown (Aggregator.start 1) 3).trace =
        [Event.iterRead [5, 10, 0] [2, 65], Event.assemble [5, 10, 0] [2, 65],
          Event.iterRead [5, 11, 0] [2, 66], Event.assemble [5, 11, 0] [2, 66],
          Event.doBatchPut [([3, 7, 10, 0, 65], [5, 10, 0]), ([3, 7, 11, 0, 66], [5, 11, 0])],
          Event.partLeader, Event.checkFailed] ∧
      finishCalls (doIndexCreate 2 demoLeaderUnknown (Aggregator.start 1) 3).trace = [] := by
  decide

/-! ## Leadership loss and scan-open failure, as the code runs them -/

/-- C2, evaluated. With a threshold of one pair, the first `doBatchPut`
returns `E_LEADER_CHANGED`; the run asks `partLeader`, then reads and
transforms the second row, issues a second `doBatchPut`, and only then calls
`finishProcess`: lines 72-79 neither finish nor return. -/
theorem leader_change_scan_goes_on :
    doBatchPut demoLeaderChange 0 1 3 [([3, 7, 10, 0, 65], [5, 10, 0])] =
        cpp2.ErrorCode.E_LEADER_CHANGED ∧
      (doIndexCreate 1 demoLeaderChange (Aggregator.start 1) 3).trace =
        [Event.iterRead [5, 10, 0] [2, 65], Event.assemble [5, 10, 0] [2, 65],
          Event.doBatchPut [([3, 7, 10, 0, 65], [5, 10, 0])],
          Event.partLeader,
          Event.iterRead [5, 11, 0] [2, 66], Event.assemble [5, 11, 0] [2, 66],
          Event.doBatchPut [([3, 7, 11, 0, 66], [5, 11, 0])],
          Event.finishProcess
            { code := cpp2.ErrorCode.SUCCEEDED, part_id := 3,
              leader := some { ip := 167772161, port := 44500 } },
          Event.deleteSnapshot 1, Event.onFinished] := by
  decide

/-- C3, evaluated. The only `doBatchPut` of the run (the flush after the scan)
returns `E_LEADER_CHANGED`; the result handed to `finishProcess` carries the
leader's address but the code `SUCCEEDED`, so it is not appended to `codes_`
and the build is finalized with an empty `failed_codes`. -/
theorem leader_change_reported_as_success :
    doBatchPut demoLeaderLost 0 1 3
        [([3, 7, 10, 0, 65], [5, 10, 0]), ([3, 7, 11, 0, 66], [5, 11, 0])] =
        cpp2.ErrorCode.E_LEADER_CHANGED ∧
      putsOf (doIndexCreate 5 demoLeaderLost (Aggregator.start 1) 3).trace =
        [[([3, 7, 10, 0, 65], [5, 10, 0]), ([3, 7, 11, 0, 66], [5, 11, 0])]] ∧
      finishCalls (doIndexCreate 5 demoLeaderLost (Aggregator.start 1) 3).trace =
        [{ code := cpp2.ErrorCode.SUCCEEDED, part_id := 3,
           leader := some { ip := 167772161, port := 44500 } }] ∧
      (doIndexCreate 5 demoLeaderLost (Aggregator.start 1) 3).agg =
        { codes_ := [], callingNum_ := 0, failed_codes := some [] } := by
  decide

/-- When the scan does not open (line 51), the run is the single call
`finishProcess` with the code `to(ret)`: no row is read or transformed and no
`doBatchPut` is issued. -/
theorem doIndexCreate_scan_not_opened (T : Int) (p : IndexBaseProcessor Reader Cols)
    (agg : Aggregator) (partId : Int)
    (hfail : (p.prefixSnapshot p.spaceId_ partId (p.partPrefix partId)).1 ≠
        kvstore.ResultCode.SUCCEEDED ∨
      (p.prefixSnapshot p.spaceId_ partId (p.partPrefix partId)).2 = none) :
    doIndexCreate T p agg partId =
      finishWith p.spaceId_ agg []
        { code := p.to_ (p.prefixSnapshot p.spaceId_ partId (p.partPrefix partId)).1,
          part_id := partId, leader := none } := by
  have hopen : (if (p.prefixSnapshot p.spaceId_ partId (p.partPrefix partId)).1 ≠
      kvstore.ResultCode.SUCCEEDED then none
      else (p.prefixSnapshot p.spaceId_ partId (p.partPrefix partId)).2) = none := by
    rcases hfail with h | h
    · rw [if_pos h]
    · rw [h]; exact ite_self _
  simp only [doIndexCreate, hopen]

/-- C10, evaluated. `prefixSnapshot` returns `SUCCEEDED` and leaves `iter`
null: the run takes the failure branch of line 51 but reports
`to(SUCCEEDED)`, that is `SUCCEEDED`; of the two partitions of the build this
one is counted as a success and nothing is appended to `codes_`. -/
theorem scan_without_iterator_reported_as_success :
    demoNoIterator.prefixSnapshot 1 3 (demoNoIterator.partPrefix 3) =
        (kvstore.ResultCode.SUCCEEDED, none) ∧
      doIndexCreate 1 demoNoIterator (Aggregator.start 2) 3 =
        { agg := { codes_ := [], callingNum_ := 1, failed_codes := none },
          trace := [Event.finishProcess
            { code := cpp2.ErrorCode.SUCCEEDED, part_id := 3, leader := none }] } := by
  decide

/-! ## Rows that are not indexable -/

theorem assembleVertexProps_no_match (p : IndexBaseProcessor Reader Cols)
    (spaceId partId : Int) (key : Bytes) (tagId : Int) (reader : Option Reader) :
    ∀ props : List (Int × Cols), (∀ prop ∈ props, tagId ≠ prop.1) →
      ∃ fmt args, assembleVertexProps p spaceId partId key tagId reader props =
        Exec.returns (StatusOr.error fmt args) := by
  intro props
  induction props with
  | nil => intro _; exact ⟨_, _, rfl⟩
  | cons prop rest ih =>
    intro hno
    have hprop : tagId ≠ prop.1 := hno prop (List.mem_cons_self _ _)
    cases hn : p.getNewestTagSchemaVer spaceId tagId with
    | error fmt args =>
      refine ⟨"Space %d tag %d invalid", [spaceId, tagId], ?_⟩
      simp only [assembleVertexProps, hn]
    | ok newest =>
      obtain ⟨fmt, args, h⟩ := ih (fun q hq => hno q (List.mem_cons_of_mem _ hq))
      refine ⟨fmt, args, ?_⟩
      simp only [assembleVertexProps, hn]
      rw [if_neg hprop]; exact h

theorem assembleEdgeProps_no_match (p : IndexBaseProcessor Reader Cols)
    (spaceId partId : Int) (key : Bytes) (edgeType : Int) (reader : Option Reader) :
    ∀ props : List (Int × Cols), (∀ prop ∈ props, edgeType ≠ prop.1) →
      ∃ fmt args, assembleEdgeProps p spaceId partId key edgeType reader props =
        Exec.returns (StatusOr.error fmt args) := by
  intro props
  induction props with
  | nil => intro _; exact ⟨_, _, rfl⟩
  | cons prop rest ih =>
    intro hno
    have hprop : edgeType ≠ prop.1 := hno prop (List.mem_cons_self _ _)
    cases hn : p.getNewestEdgeSchemaVer spaceId edgeType with
    | error fmt args =>
      refine ⟨"Space %d edge %d invalid", [spaceId, edgeType], ?_⟩
      simp only [assembleEdgeProps, hn]
    | ok newest =>
      obtain ⟨fmt, args, h⟩ := ih (fun q hq => hno q (List.mem_cons_of_mem _ hq))
      refine ⟨fmt, args, ?_⟩
      simp only [assembleEdgeProps, hn]
      rw [if_neg hprop]; exact h

/-- C15. No matching property mapping: for every row with a well-formed key
whose tag id (resp. edge type) is the id of no pair of `props_` (an empty
`props_` included), `assembleVertexIndexKey` (resp. `assembleEdgeIndexKey`)
returns an error and no index key, whatever the value is and whether or not it
has a reader. -/
theorem no_matching_props (p : IndexBaseProcessor Reader Cols) (spaceId partId : Int)
    (key val : Bytes) :
    ((key.length : Int) = p.getVertexLen →
      (∀ prop ∈ p.props_, p.parseTagId key ≠ prop.1) →
      ∃ fmt args, assembleVertexIndexKey p spaceId partId key val =
        Exec.returns (StatusOr.error fmt args)) ∧
    ((key.length : Int) = p.getEdgeLen →
      (∀ prop ∈ p.props_, p.parseEdgeType key ≠ prop.1) →
      ∃ fmt args, assembleEdgeIndexKey p spaceId partId key val =
        Exec.returns (StatusOr.error fmt args)) := by
  constructor
  · intro hlen hno
    simp only [assembleVertexIndexKey, hlen, ne_eq, not_true_eq_false, if_false]
    exact assembleVertexProps_no_match p spaceId partId key _ _ p.props_ hno
  · intro hlen hno
    simp only [assembleEdgeIndexKey, hlen, ne_eq, not_true_eq_false, if_false]
    exact assembleEdgeProps_no_match p spaceId partId key _ _ p.props_ hno

/-- Witness of C15: a vertex of tag `6` and an edge of type `6`, while
`props_` only names the id `5`; the values have no reader. -/
theorem no_matching_props_witness :
    (∃ fmt args, assembleVertexIndexKey demo 1 3 [6, 12, 0] [] =
        Exec.returns (StatusOr.error fmt args)) ∧
    (∃ fmt args, assembleEdgeIndexKey demo 1 3 [10, 6, 0, 11, 0] [] =
        Exec.returns (StatusOr.error fmt args)) :=
  ⟨(no_matching_props demo 1 3 [6, 12, 0] []).1 (by decide) (by decide),
    (no_matching_props demo 1 3 [10, 6, 0, 11, 0] []).2 (by decide) (by decide)⟩

/-- C16, evaluated. A well-formed vertex key of tag `5` and a well-formed edge
key of type `5`, with a value for which `getTagPropReader` /
`getEdgePropReader` yield no reader, while `props_` names the id `5` and the
newest version is known: both transformers evaluate `reader->schemaVer()` on
the null `reader` (lines 172 and 144) instead of returning an error. -/
theorem null_reader_dereferenced :
    demo.getTagPropReader [] 1 (demo.parseTagId [5, 10, 0]) = none ∧
      assembleVertexIndexKey demo 1 3 [5, 10, 0] [] = Exec.nullDeref ∧
      demo.getEdgePropReader [] 1 (demo.parseEdgeType [10, 5, 0, 11, 0]) = none ∧
      assembleEdgeIndexKey demo 1 3 [10, 5, 0, 11, 0] [] = Exec.nullDeref := by
  decide

/-- Given an injective `tagIndexkey`, two vertex rows that are both turned
into index keys and whose vertex ids differ get different index keys. -/
theorem vertex_keys_differ (p : IndexBaseProcessor Reader Cols) (spaceId partId : Int)
    (key1 val1 key2 val2 indexKey1 indexKey2 : Bytes)
    (hinj : ∀ a1 b1 c1 d1 e1 a2 b2 c2 d2 e2,
      p.tagIndexkey a1 b1 c1 d1 e1 = p.tagIndexkey a2 b2 c2 d2 e2 →
        a1 = a2 ∧ b1 = b2 ∧ c1 = c2 ∧ d1 = d2 ∧ e1 = e2)
    (h1 : assembleVertexIndexKey p spaceId partId key1 val1 =
      Exec.returns (StatusOr.ok indexKey1))
    (h2 : assembleVertexIndexKey p spaceId partId key2 val2 =
      Exec.returns (StatusOr.ok indexKey2))
    (hne : p.parseVertexId key1 ≠ p.parseVertexId key2) :
    indexKey1 ≠ indexKey2 := by
  have shape : ∀ (key val indexKey : Bytes),
      assembleVertexIndexKey p spaceId partId key val = Exec.returns (StatusOr.ok indexKey) →
      ∃ ver propVal,
        indexKey = p.tagIndexkey partId p.indexId_ (p.parseVertexId key) ver propVal := by
    intro key val indexKey h
    unfold assembleVertexIndexKey at h
    by_cases hlen : (key.length : Int) ≠ p.getVertexLen
    · rw [if_pos hlen] at h; cases h
    · rw [if_neg hlen] at h
      simp only at h
      generalize p.getTagPropReader val spaceId (p.parseTagId key) = reader at h
      generalize p.parseTagId key = tagId at h
      generalize p.props_ = props at h
      induction props with
      | nil => cases h
      | cons prop rest ih =>
        simp only [assembleVertexProps] at h
        split at h
        · cases h
        · split at h
          · split at h
            · cases h
            · split at h
              · split at h
                · cases h
                · injection h with h
                  injection h with h
                  exact ⟨_, _, h.symm⟩
              · exact ih h
          · exact ih h
  obtain ⟨ver1, propVal1, e1⟩ := shape key1 val1 indexKey1 h1
  obtain ⟨ver2, propVal2, e2⟩ := shape key2 val2 indexKey2 h2
  intro heq
  rw [e1, e2] at heq
  exact hne (hinj _ _ _ _ _ _ _ _ _ _ heq).2.2.1

/-- C13, evaluated. Two indexable edge rows of one partition and one index,
of the same type, version and property value, that join different vertices
(`10 → 11` and `12 → 13`): `assembleEdgeIndexKey` hands `edgeIndexkey` the same
arguments for both (line 150 passes the edge type and the version, never the
endpoints), so both rows get the same index key, whatever the codec is. -/
theorem edge_endpoints_not_in_index_key :
    assembleEdgeIndexKey demoEdges 1 3 [10, 5, 0, 11, 0] [2, 65] =
        Exec.returns (StatusOr.ok (demoEdges.edgeIndexkey 3 7 5 0 [65])) ∧
      assembleEdgeIndexKey demoEdges 1 3 [12, 5, 0, 13, 0] [2, 65] =
        Exec.returns (StatusOr.ok (demoEdges.edgeIndexkey 3 7 5 0 [65])) ∧
      putsOf (doIndexCreate 1 demoEdges (Aggregator.start 1) 3).trace =
        [[([3, 7, 5, 0, 65], [10, 5, 0, 11, 0])], [([3, 7, 5, 0, 65], [12, 5, 0, 13, 0])]] := by
  decide

/-! ## Batches and write outcomes -/

theorem wrapInt32_of_int32 (x : Int) (hlo : -2147483648 ≤ x) (hhi : x ≤ 2147483647) :
    wrapInt32 x = x := by
  unfold wrapInt32
  omega

/-- The block after a put issues no put and makes no `finishProcess` call. -/
theorem afterPut_events (p : IndexBaseProcessor Reader Cols) (partId : Int)
    (code : cpp2.ErrorCode) (thriftResult : cpp2.ResultCode) :
    putsOf (afterPut p partId code thriftResult).1 = [] ∧
      finishCalls (afterPut p partId code thriftResult).1 = [] := by
  unfold afterPut
  by_cases h1 : code = cpp2.ErrorCode.E_LEADER_CHANGED
  · cases hl : p.partLeader p.spaceId_ partId <;> simp [h1, hl, putsOf, finishCalls]
  · by_cases h2 : code = cpp2.ErrorCode.SUCCEEDED <;> simp [h1, h2, putsOf, finishCalls]

/-- The block after a put keeps `part_id`. -/
theorem afterPut_part_id (p : IndexBaseProcessor Reader Cols) (partId : Int)
    (code : cpp2.ErrorCode) (thriftResult r : cpp2.ResultCode)
    (h : (afterPut p partId code thriftResult).2 = AfterPut.proceed r ∨
      (afterPut p partId code thriftResult).2 = AfterPut.stop r) :
    r.part_id = thriftResult.part_id := by
  unfold afterPut at h
  by_cases h1 : code = cpp2.ErrorCode.E_LEADER_CHANGED
  · cases hl : p.partLeader p.spaceId_ partId with
    | error e => simp [h1, hl] at h
    | ok addr =>
      simp only [h1, hl, if_true] at h
      rcases h with h | h
      · injection h with h; rw [← h]
      · cases h
  · by_cases h2 : code = cpp2.ErrorCode.SUCCEEDED
    · simp only [h1, h2, if_false, ne_eq, not_true_eq_false] at h
      rcases h with h | h
      · injection h with h; rw [← h]
      · cases h
    · simp only [h1, h2, if_false, ne_eq, not_false_eq_true, if_true] at h
      rcases h with h | h
      · cases h
      · injection h with h; rw [← h]

/-- A code that is neither `SUCCEEDED` nor `E_LEADER_CHANGED` takes the block
after a put to `finishProcess(thriftResult); return;` with that code
(lines 80-84, 99-103). -/
theorem afterPut_fatal (p : IndexBaseProcessor Reader Cols) (partId : Int)
    (code : cpp2.ErrorCode) (thriftResult : cpp2.ResultCode)
    (h1 : code ≠ cpp2.ErrorCode.SUCCEEDED) (h2 : code ≠ cpp2.ErrorCode.E_LEADER_CHANGED) :
    afterPut p partId code thriftResult =
      ([], AfterPut.stop { thriftResult with code := code }) := by
  simp [afterPut, h1, h2]

/-- A filled batch whose put lets the scan go on. -/
theorem scanLoop_cons_put_proceed (T : Int) (p : IndexBaseProcessor Reader Cols)
    (partId : Int) (row : Bytes × Bytes) (rest : List (Bytes × Bytes)) (st : ScanState)
    (indexKey : Bytes) (r : cpp2.ResultCode)
    (h : assembleIndexKey p partId row.1 row.2 = Exec.returns (StatusOr.ok indexKey))
    (hT : wrapInt32 (st.batchPutNum + 1) = T)
    (hafter : (afterPut p partId
        (doBatchPut p st.puts p.spaceId_ partId (st.data ++ [(indexKey, row.1)]))
        st.thriftResult).2 = AfterPut.proceed r) :
    scanLoop T p partId (row :: rest) st =
      andThen
        ([Event.iterRead row.1 row.2, Event.assemble row.1 row.2,
            Event.doBatchPut (st.data ++ [(indexKey, row.1)])] ++
          (afterPut p partId
            (doBatchPut p st.puts p.spaceId_ partId (st.data ++ [(indexKey, row.1)]))
            st.thriftResult).1)
        (scanLoop T p partId rest
          { data := [], batchPutNum := 0, thriftResult := r, puts := st.puts + 1 }) := by
  rw [scanLoop_cons_put T p partId row rest st indexKey h hT, hafter]
  simp [andThen]

/-- A filled batch whose put ends the run of the loop. -/
theorem scanLoop_cons_put_end (T : Int) (p : IndexBaseProcessor Reader Cols)
    (partId : Int) (row : Bytes × Bytes) (rest : List (Bytes × Bytes)) (st : ScanState)
    (indexKey : Bytes)
    (h : assembleIndexKey p partId row.1 row.2 = Exec.returns (StatusOr.ok indexKey))
    (hT : wrapInt32 (st.batchPutNum + 1) = T)
    (hafter : ∀ r, (afterPut p partId
        (doBatchPut p st.puts p.spaceId_ partId (st.data ++ [(indexKey, row.1)]))
        st.thriftResult).2 ≠ AfterPut.proceed r) :
    scanLoop T p partId (row :: rest) st =
      ([Event.iterRead row.1 row.2, Event.assemble row.1 row.2,
          Event.doBatchPut (st.data ++ [(indexKey, row.1)])] ++
        (afterPut p partId
          (doBatchPut p st.puts p.spaceId_ partId (st.data ++ [(indexKey, row.1)]))
          st.thriftResult).1,
        match (afterPut p partId
          (doBatchPut p st.puts p.spaceId_ partId (st.data ++ [(indexKey, row.1)]))
          st.thriftResult).2 with
        | AfterPut.stop r => ScanExit.stop r
        | _ => ScanExit.aborted) := by
  rw [scanLoop_cons_put T p partId row rest st indexKey h hT]
  cases hres : (afterPut p partId
      (doBatchPut p st.puts p.spaceId_ partId (st.data ++ [(indexKey, row.1)]))
      st.thriftResult).2 with
  | proceed r => exact absurd hres (hafter r)
  | stop r => simp [andThen]
  | checkFailed => simp [andThen]

/-- The loop itself never calls `finishProcess`. -/
theorem finishCalls_scanLoop (T : Int) (p : IndexBaseProcessor Reader Cols) (partId : Int) :
    ∀ (rows : List (Bytes × Bytes)) (st : ScanState),
      finishCalls (scanLoop T p partId rows st).1 = [] := by
  intro rows
  induction rows with
  | nil => intro st; rfl
  | cons row rest ih =>
    intro st
    cases h : assembleIndexKey p partId row.1 row.2 with
    | nullDeref => rw [scanLoop_cons_null T p partId row rest st h]; rfl
    | returns status =>
      cases status with
      | error fmt args =>
        rw [scanLoop_cons_error T p partId row rest st fmt args h]
        simp only [andThen, finishCalls_append, ih]
        rfl
      | ok indexKey =>
        by_cases hT : wrapInt32 (st.batchPutNum + 1) = T
        · have hev := (afterPut_events p partId
            (doBatchPut p st.puts p.spaceId_ partId (st.data ++ [(indexKey, row.1)]))
            st.thriftResult).2
          by_cases hp : ∃ r, (afterPut p partId
              (doBatchPut p st.puts p.spaceId_ partId (st.data ++ [(indexKey, row.1)]))
              st.thriftResult).2 = AfterPut.proceed r
          · obtain ⟨r, hr⟩ := hp
            rw [scanLoop_cons_put_proceed T p partId row rest st indexKey r h hT hr]
            simp only [andThen, finishCalls_append, ih, hev]
            rfl
          · rw [scanLoop_cons_put_end T p partId row rest st indexKey h hT
              (fun r hr => hp ⟨r, hr⟩)]
            simp only [finishCalls_append, hev]
            rfl
        · rw [scanLoop_cons_keep T p partId row rest st indexKey h hT]
          simp only [andThen, finishCalls_append, ih]
          rfl

/-- When every row's transformation returns an error, the loop issues no put
and leaves its variables as they were. -/
theorem scanLoop_all_errors (T : Int) (p : IndexBaseProcessor Reader Cols) (partId : Int) :
    ∀ (rows : List (Bytes × Bytes)) (st : ScanState),
      (∀ row ∈ rows, ∃ fmt args,
        assembleIndexKey p partId row.1 row.2 = Exec.returns (StatusOr.error fmt args)) →
      putsOf (scanLoop T p partId rows st).1 = [] ∧
        (scanLoop T p partId rows st).2 = ScanExit.exhausted st := by
  intro rows
  induction rows with
  | nil => intro st _; exact ⟨rfl, rfl⟩
  | cons row rest ih =>
    intro st hall
    obtain ⟨fmt, args, h⟩ := hall row (List.mem_cons_self _ _)
    obtain ⟨h1, h2⟩ := ih st (fun r hr => hall r (List.mem_cons_of_mem _ hr))
    rw [scanLoop_cons_error T p partId row rest st fmt args h]
    refine ⟨?_, h2⟩
    simp only [andThen, putsOf_append, h1]
    rfl

/-- After an exhausted scan that left no pending pair, the run finishes with
the result as the loop left it (line 112). -/
theorem doIndexCreate_exhausted_empty (T : Int) (p : IndexBaseProcessor Reader Cols)
    (agg : Aggregator) (partId : Int) (rows : List (Bytes × Bytes)) (st : ScanState)
    (hopen : p.prefixSnapshot p.spaceId_ partId (p.partPrefix partId) =
      (kvstore.ResultCode.SUCCEEDED, some rows))
    (hexit : (scanLoop T p partId rows (ScanState.init partId)).2 = ScanExit.exhausted st)
    (hdata : st.data = []) :
    doIndexCreate T p agg partId =
      finishWith p.spaceId_ agg (scanLoop T p partId rows (ScanState.init partId)).1
        st.thriftResult := by
  unfold ScanState.init at hexit ⊢
  simp only [doIndexCreate, hopen, ne_eq, not_true_eq_false, if_false, hexit, hdata]

/-- After an exhausted scan that left pending pairs, the run flushes them
(lines 89-104) and finishes unless the `CHECK` fails. -/
theorem doIndexCreate_exhausted_flush (T : Int) (p : IndexBaseProcessor Reader Cols)
    (agg : Aggregator) (partId : Int) (rows : List (Bytes × Bytes)) (st : ScanState)
    (hopen : p.prefixSnapshot p.spaceId_ partId (p.partPrefix partId) =
      (kvstore.ResultCode.SUCCEEDED, some rows))
    (hexit : (scanLoop T p partId rows (ScanState.init partId)).2 = ScanExit.exhausted st)
    (hdata : st.data ≠ []) :
    doIndexCreate T p agg partId =
      match (afterPut p partId (doBatchPut p st.puts p.spaceId_ partId st.data)
          st.thriftResult).2 with
      | AfterPut.proceed r =>
        finishWith p.spaceId_ agg
          ((scanLoop T p partId rows (ScanState.init partId)).1 ++
            Event.doBatchPut st.data ::
              (afterPut p partId (doBatchPut p st.puts p.spaceId_ partId st.data)
                st.thriftResult).1) r
      | AfterPut.stop r =>
        finishWith p.spaceId_ agg
          ((scanLoop T p partId rows (ScanState.init partId)).1 ++
            Event.doBatchPut st.data ::
              (afterPut p partId (doBatchPut p st.puts p.spaceId_ partId st.data)
                st.thriftResult).1) r
      | AfterPut.checkFailed =>
        { agg := agg,
          trace := (scanLoop T p partId rows (ScanState.init partId)).1 ++
            Event.doBatchPut st.data ::
              (afterPut p partId (doBatchPut p st.puts p.spaceId_ partId st.data)
                st.thriftResult).1 } := by
  unfold ScanState.init at hexit ⊢
  simp only [doIndexCreate, hopen, ne_eq, not_true_eq_false, if_false, hexit]
  rw [if_pos hdata]

/-- A scan left at `finishProcess(thriftResult); return;` (lines 81-83). -/
theorem doIndexCreate_stopped (T : Int) (p : IndexBaseProcessor Reader Cols)
    (agg : Aggregator) (partId : Int) (rows : List (Bytes × Bytes)) (r : cpp2.ResultCode)
    (hopen : p.prefixSnapshot p.spaceId_ partId (p.partPrefix partId) =
      (kvstore.ResultCode.SUCCEEDED, some rows))
    (hexit : (scanLoop T p partId rows (ScanState.init partId)).2 = ScanExit.stop r) :
    doIndexCreate T p agg partId =
      finishWith p.spaceId_ agg (scanLoop T p partId rows (ScanState.init partId)).1 r := by
  unfold ScanState.init at hexit ⊢
  simp only [doIndexCreate, hopen, ne_eq, not_true_eq_false, if_false, hexit]

/-- A scan that the process did not survive. -/
theorem doIndexCreate_aborted (T : Int) (p : IndexBaseProcessor Reader Cols)
    (agg : Aggregator) (partId : Int) (rows : List (Bytes × Bytes))
    (hopen : p.prefixSnapshot p.spaceId_ partId (p.partPrefix partId) =
      (kvstore.ResultCode.SUCCEEDED, some rows))
    (hexit : (scanLoop T p partId rows (ScanState.init partId)).2 = ScanExit.aborted) :
    doIndexCreate T p agg partId =
      { agg := agg, trace := (scanLoop T p partId rows (ScanState.init partId)).1 } := by
  unfold ScanState.init at hexit ⊢
  simp only [doIndexCreate, hopen, ne_eq, not_true_eq_false, if_false, hexit]

/-- The scan is opened exactly when `prefixSnapshot` returns `SUCCEEDED` and an
iterator; otherwise the run issues no put. -/
theorem doIndexCreate_opened_or_no_put (T : Int) (p : IndexBaseProcessor Reader Cols)
    (agg : Aggregator) (partId : Int) :
    (∃ rows, p.prefixSnapshot p.spaceId_ partId (p.partPrefix partId) =
        (kvstore.ResultCode.SUCCEEDED, some rows)) ∨
      putsOf (doIndexCreate T p agg partId).trace = [] := by
  by_cases hret : (p.prefixSnapshot p.spaceId_ partId (p.partPrefix partId)).1 =
      kvstore.ResultCode.SUCCEEDED
  · cases hiter : (p.prefixSnapshot p.spaceId_ partId (p.partPrefix partId)).2 with
    | some rows => exact Or.inl ⟨rows, Prod.ext hret hiter⟩
    | none =>
      right
      rw [doIndexCreate_scan_not_opened T p agg partId (Or.inr hiter), putsOf_finishWith]
      rfl
  · right
    rw [doIndexCreate_scan_not_opened T p agg partId (Or.inl hret), putsOf_finishWith]
    rfl

/-- Row errors on a scan the transformer returns on: when the scan opens, every
`doBatchPut` returns `SUCCEEDED` and no row makes the transformer read through
a null `reader`, the one result `doIndexCreate` reports has the code
`SUCCEEDED`, however many rows return an error; the pairs written are the pairs
of the rows whose transformation succeeds, a row whose transformation returns
an error contributing none; and if every row returns an error no `doBatchPut`
is issued at all. -/
theorem row_errors_absorbed (T : Int) (p : IndexBaseProcessor Reader Cols)
    (agg : Aggregator) (partId : Int) (rows : List (Bytes × Bytes))
    (hopen : p.prefixSnapshot p.spaceId_ partId (p.partPrefix partId) =
      (kvstore.ResultCode.SUCCEEDED, some rows))
    (hput : ∀ n data, doBatchPut p n p.spaceId_ partId data = cpp2.ErrorCode.SUCCEEDED)
    (hrows : TransformsAll p partId rows) :
    finishCalls (doIndexCreate T p agg partId).trace =
        [{ code := cpp2.ErrorCode.SUCCEEDED, part_id := partId, leader := none }] ∧
      (putsOf (doIndexCreate T p agg partId).trace).flatten =
        rows.filterMap (indexPair p partId) ∧
      (∀ row ∈ rows,
        (∃ fmt args,
          assembleIndexKey p partId row.1 row.2 = Exec.returns (StatusOr.error fmt args)) →
        indexPair p partId row = none) ∧
      ((∀ row ∈ rows, ∃ fmt args,
          assembleIndexKey p partId row.1 row.2 = Exec.returns (StatusOr.error fmt args)) →
        putsOf (doIndexCreate T p agg partId).trace = []) := by
  obtain ⟨st', hexit, hres, _⟩ :=
    scanLoop_all_succeed T p partId hput rows (ScanState.init partId) hrows
  have hcalls := finishCalls_scanLoop T p partId rows (ScanState.init partId)
  refine ⟨?_, doIndexCreate_written T p agg partId rows hopen hput hrows, ?_, ?_⟩
  · by_cases hdata : st'.data = []
    · rw [doIndexCreate_exhausted_empty T p agg partId rows st' hopen hexit hdata]
      rw [(finishWith_once p.spaceId_ agg _ _ hcalls).2.2, hres]
      rfl
    · rw [doIndexCreate_exhausted_flush T p agg partId rows st' hopen hexit hdata, hput,
        afterPut_succeeded]
      simp only
      have hpre : finishCalls
          ((scanLoop T p partId rows (ScanState.init partId)).1 ++
            [Event.doBatchPut st'.data]) = [] := by
        rw [finishCalls_append, hcalls]; rfl
      rw [(finishWith_once p.spaceId_ agg _ _ hpre).2.2, hres]
      rfl
  · rintro row _ ⟨fmt, args, h⟩
    exact indexPair_error p partId row fmt args h
  · intro hall
    obtain ⟨hnone, hexit2⟩ := scanLoop_all_errors T p partId rows (ScanState.init partId) hall
    rw [doIndexCreate_exhausted_empty T p agg partId rows (ScanState.init partId) hopen hexit2
      rfl, putsOf_finishWith, hnone]

/-- An instance: the scan of `demoMixed`, three of whose four rows fail
transformation (stale version, short key, other tag). -/
theorem row_errors_absorbed_witness :
    finishCalls (doIndexCreate 2 demoMixed (Aggregator.start 1) 3).trace =
        [{ code := cpp2.ErrorCode.SUCCEEDED, part_id := 3, leader := none }] ∧
      putsOf (doIndexCreate 2 demoMixed (Aggregator.start 1) 3).trace =
        [[([3, 7, 13, 0, 68], [5, 13, 0])]] :=
  ⟨(row_errors_absorbed 2 demoMixed (Aggregator.start 1) 3
      [([5, 10, 0], [1, 65]), ([5, 11], [2, 66]), ([6, 12, 0], [2, 67]),
        ([5, 13, 0], [2, 68])] rfl (fun _ _ => rfl)
      (by unfold TransformsAll; decide)).1,
    by decide⟩

/-- The puts of a run whose scan was exhausted with pending pairs: those of
the loop, then the flush of the pending pairs. -/
theorem putsOf_doIndexCreate_flush (T : Int) (p : IndexBaseProcessor Reader Cols)
    (agg : Aggregator) (partId : Int) (rows : List (Bytes × Bytes)) (st : ScanState)
    (hopen : p.prefixSnapshot p.spaceId_ partId (p.partPrefix partId) =
      (kvstore.ResultCode.SUCCEEDED, some rows))
    (hexit : (scanLoop T p partId rows (ScanState.init partId)).2 = ScanExit.exhausted st)
    (hdata : st.data ≠ []) :
    putsOf (doIndexCreate T p agg partId).trace =
      putsOf (scanLoop T p partId rows (ScanState.init partId)).1 ++ [st.data] := by
  have hev := (afterPut_events p partId (doBatchPut p st.puts p.spaceId_ partId st.data)
    st.thriftResult).1
  have hcat : putsOf
      ((scanLoop T p partId rows (ScanState.init partId)).1 ++
        Event.doBatchPut st.data ::
          (afterPut p partId (doBatchPut p st.puts p.spaceId_ partId st.data)
            st.thriftResult).1) =
      putsOf (scanLoop T p partId rows (ScanState.init partId)).1 ++ [st.data] := by
    rw [putsOf_append]
    change _ ++ st.data :: putsOf (afterPut p partId
      (doBatchPut p st.puts p.spaceId_ partId st.data) st.thriftResult).1 = _
    rw [hev]
  rw [doIndexCreate_exhausted_flush T p agg partId rows st hopen hexit hdata]
  cases (afterPut p partId (doBatchPut p st.puts p.spaceId_ partId st.data)
      st.thriftResult).2 with
  | proceed r => simp only [putsOf_finishWith, hcat]
  | stop r => simp only [putsOf_finishWith, hcat]
  | checkFailed => simp only [hcat]

/-- The puts of a run that does not flush after the scan are those of the
loop. -/
theorem putsOf_doIndexCreate_no_flush (T : Int) (p : IndexBaseProcessor Reader Cols)
    (agg : Aggregator) (partId : Int) (rows : List (Bytes × Bytes))
    (hopen : p.prefixSnapshot p.spaceId_ partId (p.partPrefix partId) =
      (kvstore.ResultCode.SUCCEEDED, some rows))
    (hexit : ∀ st, (scanLoop T p partId rows (ScanState.init partId)).2 =
      ScanExit.exhausted st → st.data = []) :
    putsOf (doIndexCreate T p agg partId).trace =
      putsOf (scanLoop T p partId rows (ScanState.init partId)).1 := by
  cases h : (scanLoop T p partId rows (ScanState.init partId)).2 with
  | exhausted st =>
    rw [doIndexCreate_exhausted_empty T p agg partId rows st hopen h (hexit st h),
      putsOf_finishWith]
  | stop r => rw [doIndexCreate_stopped T p agg partId rows r hopen h, putsOf_finishWith]
  | aborted => rw [doIndexCreate_aborted T p agg partId rows hopen h]

/-- Under a threshold `T ≤ 0`, as long as `batchPutNum` stays an `int32`, the
loop issues no put; when the transformer returns on every row, it runs to the
end of the scan with every pair pending. -/
theorem scanLoop_never_full (T : Int) (hT : T ≤ 0) (p : IndexBaseProcessor Reader Cols)
    (partId : Int) :
    ∀ (rows : List (Bytes × Bytes)) (st : ScanState),
      0 ≤ st.batchPutNum →
      st.batchPutNum + (indexPairsInScanOrder p partId rows).length ≤ 2147483647 →
      putsOf (scanLoop T p partId rows st).1 = [] ∧
        (TransformsAll p partId rows →
          ∃ st', (scanLoop T p partId rows st).2 = ScanExit.exhausted st' ∧
            st'.data = st.data ++ indexPairsInScanOrder p partId rows) := by
  intro rows
  induction rows with
  | nil =>
    intro st _ _
    exact ⟨rfl, fun _ => ⟨st, rfl, by simp [indexPairsInScanOrder]⟩⟩
  | cons row rest ih =>
    intro st h0 hmax
    cases h : assembleIndexKey p partId row.1 row.2 with
    | nullDeref =>
      rw [scanLoop_cons_null T p partId row rest st h]
      exact ⟨rfl, fun hrows => absurd h (hrows row (List.mem_cons_self _ _))⟩
    | returns status =>
      cases status with
      | error fmt args =>
        simp only [indexPairsInScanOrder, List.filterMap_cons,
          indexPair_error p partId row fmt args h] at hmax
        obtain ⟨hputs, hend⟩ := ih st h0 hmax
        rw [scanLoop_cons_error T p partId row rest st fmt args h]
        refine ⟨?_, fun hrows => ?_⟩
        · simp only [andThen, putsOf_append, hputs]; rfl
        · obtain ⟨st', hexit, hdata⟩ :=
            hend (fun r hr => hrows r (List.mem_cons_of_mem _ hr))
          refine ⟨st', hexit, ?_⟩
          rw [hdata]
          simp only [indexPairsInScanOrder, List.filterMap_cons,
            indexPair_error p partId row fmt args h]
      | ok indexKey =>
        simp only [indexPairsInScanOrder, List.filterMap_cons,
          indexPair_ok p partId row indexKey h, List.length_cons] at hmax
        push_cast at hmax
        have hw : wrapInt32 (st.batchPutNum + 1) = st.batchPutNum + 1 :=
          wrapInt32_of_int32 _ (by omega) (by omega)
        have hne : wrapInt32 (st.batchPutNum + 1) ≠ T := by rw [hw]; omega
        obtain ⟨hputs, hend⟩ := ih
          { data := st.data ++ [(indexKey, row.1)],
            batchPutNum := wrapInt32 (st.batchPutNum + 1),
            thriftResult := st.thriftResult, puts := st.puts }
          (by simp only [hw]; omega)
          (by simp only [hw, indexPairsInScanOrder]; omega)
        rw [scanLoop_cons_keep T p partId row rest st indexKey h hne]
        refine ⟨?_, fun hrows => ?_⟩
        · simp only [andThen, putsOf_append, hputs]; rfl
        · obtain ⟨st', hexit, hdata⟩ :=
            hend (fun r hr => hrows r (List.mem_cons_of_mem _ hr))
          refine ⟨st', hexit, ?_⟩
          rw [hdata]
          simp only [indexPairsInScanOrder, List.filterMap_cons,
            indexPair_ok p partId row indexKey h, List.append_assoc, List.singleton_append]

/-- A non-positive threshold on a scan the transformer returns on: for every
`T ≤ 0` and every scan sequence no row of which makes the transformer read
through a null `reader` (with fewer than `2^31` transformable rows, so that
`batchPutNum++` does not overflow), `doIndexCreate` issues no `doBatchPut`
while scanning and, after the scan is exhausted, exactly one `doBatchPut` with
the pairs of all transformable rows in scan order if there is such a row, and
none otherwise. -/
theorem nonpositive_threshold (T : Int) (hT : T ≤ 0) (p : IndexBaseProcessor Reader Cols)
    (agg : Aggregator) (partId : Int) (rows : List (Bytes × Bytes))
    (hopen : p.prefixSnapshot p.spaceId_ partId (p.partPrefix partId) =
      (kvstore.ResultCode.SUCCEEDED, some rows))
    (hlen : (indexPairsInScanOrder p partId rows).length ≤ 2147483647)
    (hrows : TransformsAll p partId rows) :
    putsOf (scanLoop T p partId rows (ScanState.init partId)).1 = [] ∧
      putsOf (doIndexCreate T p agg partId).trace =
        (if indexPairsInScanOrder p partId rows = [] then []
          else [indexPairsInScanOrder p partId rows]) := by
  obtain ⟨hputs, hend⟩ := scanLoop_never_full T hT p partId rows (ScanState.init partId)
    (le_refl _) (by simp only [ScanState.init]; omega)
  obtain ⟨st', hexit, hdata⟩ := hend hrows
  simp only [ScanState.init, List.nil_append] at hdata
  refine ⟨hputs, ?_⟩
  by_cases hpairs : indexPairsInScanOrder p partId rows = []
  · rw [if_pos hpairs]
    rw [putsOf_doIndexCreate_no_flush T p agg partId rows hopen, hputs]
    intro st hst
    rw [hexit] at hst
    injection hst with hst
    rw [← hst, hdata, hpairs]
  · rw [if_neg hpairs]
    rw [putsOf_doIndexCreate_flush T p agg partId rows st' hopen hexit
      (by rw [hdata]; exact hpairs), hputs, hdata]
    rfl

/-- An instance: the scan of `demoMixed` under the threshold `0`. -/
theorem nonpositive_threshold_witness :
    putsOf (scanLoop 0 demoMixed 3
        [([5, 10, 0], [1, 65]), ([5, 11], [2, 66]), ([6, 12, 0], [2, 67]),
          ([5, 13, 0], [2, 68])] (ScanState.init 3)).1 = [] ∧
      putsOf (doIndexCreate 0 demoMixed (Aggregator.start 1) 3).trace =
        [[([3, 7, 13, 0, 68], [5, 13, 0])]] :=
  ⟨(nonpositive_threshold 0 (by decide) demoMixed (Aggregator.start 1) 3
      [([5, 10, 0], [1, 65]), ([5, 11], [2, 66]), ([6, 12, 0], [2, 67]),
        ([5, 13, 0], [2, 68])] rfl (by decide) (by unfold TransformsAll; decide)).1,
    by decide⟩

/-- Under a threshold `1 ≤ T ≤ 2^31 - 1`, while the pending pairs number
`batchPutNum < T`, every put of the loop has exactly `T` pairs, and the same
holds of the pending pairs when the scan is exhausted. -/
theorem scanLoop_batches (T : Int) (hT1 : 1 ≤ T) (hT2 : T ≤ 2147483647)
    (p : IndexBaseProcessor Reader Cols) (partId : Int) :
    ∀ (rows : List (Bytes × Bytes)) (st : ScanState),
      0 ≤ st.batchPutNum → st.batchPutNum < T → (st.data.length : Int) = st.batchPutNum →
      (∀ d ∈ putsOf (scanLoop T p partId rows st).1, (d.length : Int) = T) ∧
        (∀ st', (scanLoop T p partId rows st).2 = ScanExit.exhausted st' →
          (st'.data.length : Int) < T) := by
  intro rows
  induction rows with
  | nil =>
    intro st _ hlt hlen
    refine ⟨fun d hd => by simp [scanLoop, putsOf] at hd, fun st' hst' => ?_⟩
    simp only [scanLoop] at hst'
    injection hst' with hst'
    rw [← hst', hlen]; exact hlt
  | cons row rest ih =>
    intro st h0 hlt hlen
    cases h : assembleIndexKey p partId row.1 row.2 with
    | nullDeref =>
      rw [scanLoop_cons_null T p partId row rest st h]
      exact ⟨fun d hd => by simp [putsOf] at hd, fun st' hst' => by cases hst'⟩
    | returns status =>
      cases status with
      | error fmt args =>
        obtain ⟨hputs, hend⟩ := ih st h0 hlt hlen
        rw [scanLoop_cons_error T p partId row rest st fmt args h]
        refine ⟨fun d hd => hputs d ?_, hend⟩
        simpa [andThen, putsOf_append, putsOf] using hd
      | ok indexKey =>
        have hw : wrapInt32 (st.batchPutNum + 1) = st.batchPutNum + 1 :=
          wrapInt32_of_int32 _ (by omega) (by omega)
        have hfull : ((st.data ++ [(indexKey, row.1)]).length : Int) = st.batchPutNum + 1 := by
          simp only [List.length_append, List.length_singleton]
          push_cast
          omega
        by_cases hT : wrapInt32 (st.batchPutNum + 1) = T
        · have hlenT : ((st.data ++ [(indexKey, row.1)]).length : Int) = T := by
            rw [hfull, ← hw, hT]
          have hev := (afterPut_events p partId
            (doBatchPut p st.puts p.spaceId_ partId (st.data ++ [(indexKey, row.1)]))
            st.thriftResult).1
          by_cases hp : ∃ r, (afterPut p partId
              (doBatchPut p st.puts p.spaceId_ partId (st.data ++ [(indexKey, row.1)]))
              st.thriftResult).2 = AfterPut.proceed r
          · obtain ⟨r, hr⟩ := hp
            obtain ⟨hputs, hend⟩ := ih
              { data := [], batchPutNum := 0, thriftResult := r, puts := st.puts + 1 }
              (le_refl _) (by simp only; omega) rfl
            rw [scanLoop_cons_put_proceed T p partId row rest st indexKey r h hT hr]
            refine ⟨fun d hd => ?_, hend⟩
            simp only [andThen, putsOf_append, hev, List.append_nil] at hd
            rcases List.mem_append.mp hd with hd | hd
            · have hd' : d = st.data ++ [(indexKey, row.1)] := by
                simpa [putsOf] using hd
              rw [hd']; exact hlenT
            · exact hputs d hd
          · rw [scanLoop_cons_put_end T p partId row rest st indexKey h hT
              (fun r hr => hp ⟨r, hr⟩)]
            refine ⟨fun d hd => ?_, fun st' hst' => ?_⟩
            · simp only [putsOf_append, hev, List.append_nil] at hd
              have hd' : d = st.data ++ [(indexKey, row.1)] := by
                simpa [putsOf] using hd
              rw [hd']; exact hlenT
            · simp only at hst'
              split at hst' <;> cases hst'
        · obtain ⟨hputs, hend⟩ := ih
            { data := st.data ++ [(indexKey, row.1)],
              batchPutNum := wrapInt32 (st.batchPutNum + 1),
              thriftResult := st.thriftResult, puts := st.puts }
            (by simp only [hw]; omega) (by simp only [hw]; rw [hw] at hT; omega)
            (by simp only [hw]; exact hfull)
          rw [scanLoop_cons_keep T p partId row rest st indexKey h hT]
          refine ⟨fun d hd => hputs d ?_, hend⟩
          simpa [andThen, putsOf_append, putsOf] using hd

/-- C17. Batches are bounded by the threshold: for every threshold `T ≥ 1`
(an `int32`), every scan sequence and every sequence of write outcomes, each
pair list passed to `doBatchPut` has at least one and at most `T` pairs; every
put issued while scanning has exactly `T` pairs, and the run issues at most
one more put, after the scan is exhausted. -/
theorem batches_bounded (T : Int) (hT1 : 1 ≤ T) (hT2 : T ≤ 2147483647)
    (p : IndexBaseProcessor Reader Cols) (agg : Aggregator) (partId : Int) :
    (∀ d ∈ putsOf (doIndexCreate T p agg partId).trace,
        1 ≤ d.length ∧ (d.length : Int) ≤ T) ∧
      (∀ rows, p.prefixSnapshot p.spaceId_ partId (p.partPrefix partId) =
          (kvstore.ResultCode.SUCCEEDED, some rows) →
        (∀ d ∈ putsOf (scanLoop T p partId rows (ScanState.init partId)).1,
          (d.length : Int) = T) ∧
        ∃ last : List (List kvstore.KV),
          putsOf (doIndexCreate T p agg partId).trace =
            putsOf (scanLoop T p partId rows (ScanState.init partId)).1 ++ last ∧
          last.length ≤ 1) := by
  have main : ∀ rows, p.prefixSnapshot p.spaceId_ partId (p.partPrefix partId) =
      (kvstore.ResultCode.SUCCEEDED, some rows) →
      (∀ d ∈ putsOf (scanLoop T p partId rows (ScanState.init partId)).1,
        (d.length : Int) = T) ∧
      ∃ last : List (List kvstore.KV),
        putsOf (doIndexCreate T p agg partId).trace =
          putsOf (scanLoop T p partId rows (ScanState.init partId)).1 ++ last ∧
        last.length ≤ 1 ∧ ∀ d ∈ last, 1 ≤ d.length ∧ (d.length : Int) ≤ T := by
    intro rows hopen
    obtain ⟨hputs, hend⟩ := scanLoop_batches T hT1 hT2 p partId rows (ScanState.init partId)
      (le_refl _) (by simp only [ScanState.init]; omega) rfl
    refine ⟨hputs, ?_⟩
    by_cases hflush : ∃ st, (scanLoop T p partId rows (ScanState.init partId)).2 =
        ScanExit.exhausted st ∧ st.data ≠ []
    · obtain ⟨st, hexit, hdata⟩ := hflush
      refine ⟨[st.data],
        putsOf_doIndexCreate_flush T p agg partId rows st hopen hexit hdata, le_refl _, ?_⟩
      intro d hd
      rw [List.mem_singleton] at hd
      rw [hd]
      exact ⟨List.length_pos.mpr hdata, le_of_lt (hend st hexit)⟩
    · refine ⟨[], ?_, Nat.zero_le _, fun d hd => absurd hd (List.not_mem_nil d)⟩
      rw [List.append_nil]
      apply putsOf_doIndexCreate_no_flush T p agg partId rows hopen
      intro st hst
      by_contra hdata
      exact hflush ⟨st, hst, hdata⟩
  refine ⟨?_, fun rows hopen => ?_⟩
  · intro d hd
    rcases doIndexCreate_opened_or_no_put T p agg partId with ⟨rows, hopen⟩ | hnone
    · obtain ⟨hputs, last, hcat, _, hlast⟩ := main rows hopen
      rw [hcat] at hd
      rcases List.mem_append.mp hd with hd | hd
      · have := hputs d hd
        constructor
        · omega
        · omega
      · exact hlast d hd
    · rw [hnone] at hd
      exact absurd hd (List.not_mem_nil d)
  · obtain ⟨hputs, last, hcat, hlen, _⟩ := main rows hopen
    exact ⟨hputs, last, hcat, hlen⟩

/-- Witness of C17: the two rows of `demo` under the thresholds `1` and `2`. -/
theorem batches_bounded_witness :
    (∀ d ∈ putsOf (doIndexCreate 1 demo (Aggregator.start 1) 3).trace,
        1 ≤ d.length ∧ (d.length : Int) ≤ 1) ∧
      putsOf (doIndexCreate 1 demo (Aggregator.start 1) 3).trace =
        [[([3, 7, 10, 0, 65], [5, 10, 0])], [([3, 7, 11, 0, 66], [5, 11, 0])]] :=
  ⟨(batches_bounded 1 (by decide) (by decide) demo (Aggregator.start 1) 3).1, by decide⟩

/-- However the loop is left, `part_id` is kept; when it is left at the end of
the scan, `puts` has counted the puts of the loop. -/
theorem scanLoop_exit (T : Int) (p : IndexBaseProcessor Reader Cols) (partId : Int) :
    ∀ (rows : List (Bytes × Bytes)) (st : ScanState),
      (∀ st', (scanLoop T p partId rows st).2 = ScanExit.exhausted st' →
          st'.thriftResult.part_id = st.thriftResult.part_id ∧
          st'.puts = st.puts + (putsOf (scanLoop T p partId rows st).1).length) ∧
        (∀ r, (scanLoop T p partId rows st).2 = ScanExit.stop r →
          r.part_id = st.thriftResult.part_id) := by
  intro rows
  induction rows with
  | nil =>
    intro st
    refine ⟨fun st' h => ?_, fun r h => by cases h⟩
    simp only [scanLoop] at h
    injection h with h
    rw [← h]
    exact ⟨rfl, rfl⟩
  | cons row rest ih =>
    intro st
    cases h : assembleIndexKey p partId row.1 row.2 with
    | nullDeref =>
      rw [scanLoop_cons_null T p partId row rest st h]
      exact ⟨fun st' h => (by cases h), fun r h => (by cases h)⟩
    | returns status =>
      cases status with
      | error fmt args =>
        rw [scanLoop_cons_error T p partId row rest st fmt args h]
        obtain ⟨h1, h2⟩ := ih st
        refine ⟨fun st' hst' => ?_, h2⟩
        obtain ⟨ha, hb⟩ := h1 st' hst'
        refine ⟨ha, ?_⟩
        rw [hb]
        simp only [andThen, putsOf_append]
        rfl
      | ok indexKey =>
        by_cases hT : wrapInt32 (st.batchPutNum + 1) = T
        · have hev := (afterPut_events p partId
            (doBatchPut p st.puts p.spaceId_ partId (st.data ++ [(indexKey, row.1)]))
            st.thriftResult).1
          by_cases hp : ∃ r, (afterPut p partId
              (doBatchPut p st.puts p.spaceId_ partId (st.data ++ [(indexKey, row.1)]))
              st.thriftResult).2 = AfterPut.proceed r
          · obtain ⟨r0, hr0⟩ := hp
            have hpart := afterPut_part_id p partId _ st.thriftResult r0 (Or.inl hr0)
            rw [scanLoop_cons_put_proceed T p partId row rest st indexKey r0 h hT hr0]
            obtain ⟨h1, h2⟩ := ih
              { data := [], batchPutNum := 0, thriftResult := r0, puts := st.puts + 1 }
            refine ⟨fun st' hst' => ?_, fun r hr => (h2 r hr).trans hpart⟩
            obtain ⟨ha, hb⟩ := h1 st' hst'
            refine ⟨ha.trans hpart, ?_⟩
            rw [hb]
            simp only [andThen, putsOf_append, hev, List.append_nil, List.length_append]
            change _ = st.puts + (1 + _)
            omega
          · rw [scanLoop_cons_put_end T p partId row rest st indexKey h hT
              (fun r hr => hp ⟨r, hr⟩)]
            refine ⟨fun st' hst' => ?_, fun r hr => ?_⟩
            · simp only at hst'
              split at hst' <;> cases hst'
            · simp only at hr
              split at hr
              · rename_i r1 hr1
                injection hr with hr
                rw [← hr]
                exact afterPut_part_id p partId _ st.thriftResult r1 (Or.inr hr1)
              · cases hr
        · rw [scanLoop_cons_keep T p partId row rest st indexKey h hT]
          obtain ⟨h1, h2⟩ := ih
            { data := st.data ++ [(indexKey, row.1)],
              batchPutNum := wrapInt32 (st.batchPutNum + 1),
              thriftResult := st.thriftResult, puts := st.puts }
          refine ⟨fun st' hst' => ?_, h2⟩
          obtain ⟨ha, hb⟩ := h1 st' hst'
          refine ⟨ha, ?_⟩
          rw [hb]
          simp only [andThen, putsOf_append]
          rfl

/-- A put of the loop that returns a code other than `SUCCEEDED` and
`E_LEADER_CHANGED` is the last action of the loop, which is left at
`finishProcess(thriftResult); return;` with that code. -/
theorem scanLoop_fatal (T : Int) (p : IndexBaseProcessor Reader Cols) (partId : Int)
    (c : cpp2.ErrorCode) (h1 : c ≠ cpp2.ErrorCode.SUCCEEDED)
    (h2 : c ≠ cpp2.ErrorCode.E_LEADER_CHANGED) :
    ∀ (rows : List (Bytes × Bytes)) (st : ScanState) (k : Nat) (data : List kvstore.KV),
      (putsOf (scanLoop T p partId rows st).1)[k]? = some data →
      doBatchPut p (st.puts + k) p.spaceId_ partId data = c →
      ∃ pre r, scanLoop T p partId rows st = (pre ++ [Event.doBatchPut data], ScanExit.stop r) ∧
        (putsOf pre).length = k ∧ r.code = c ∧ r.part_id = st.thriftResult.part_id := by
  intro rows
  induction rows with
  | nil => intro st k data hk _; simp [scanLoop, putsOf] at hk
  | cons row rest ih =>
    intro st k data hk hc
    cases h : assembleIndexKey p partId row.1 row.2 with
    | nullDeref =>
      rw [scanLoop_cons_null T p partId row rest st h] at hk
      simp [putsOf] at hk
    | returns status =>
      cases status with
      | error fmt args =>
        rw [scanLoop_cons_error T p partId row rest st fmt args h] at hk ⊢
        have hk' : (putsOf (scanLoop T p partId rest st).1)[k]? = some data := by
          simpa [andThen, putsOf_append, putsOf] using hk
        obtain ⟨pre, r, hrun, hlen, hcode, hpart⟩ := ih st k data hk' hc
        refine ⟨[Event.iterRead row.1 row.2, Event.assemble row.1 row.2] ++ pre, r, ?_,
          ?_, hcode, hpart⟩
        · rw [hrun]; simp [andThen]
        · rw [putsOf_append, List.length_append, hlen]
          change 0 + k = k
          omega
      | ok indexKey =>
        by_cases hT : wrapInt32 (st.batchPutNum + 1) = T
        · have hev := (afterPut_events p partId
            (doBatchPut p st.puts p.spaceId_ partId (st.data ++ [(indexKey, row.1)]))
            st.thriftResult).1
          by_cases hp : ∃ r, (afterPut p partId
              (doBatchPut p st.puts p.spaceId_ partId (st.data ++ [(indexKey, row.1)]))
              st.thriftResult).2 = AfterPut.proceed r
          · obtain ⟨r0, hr0⟩ := hp
            rw [scanLoop_cons_put_proceed T p partId row rest st indexKey r0 h hT hr0] at hk ⊢
            have hk' : ((st.data ++ [(indexKey, row.1)]) ::
                putsOf (scanLoop T p partId rest
                  { data := [], batchPutNum := 0, thriftResult := r0,
                    puts := st.puts + 1 }).1)[k]? = some data := by
              simp only [andThen, putsOf_append, hev, List.append_nil] at hk
              exact hk
            cases k with
            | zero =>
              simp only [List.getElem?_cons_zero, Option.some.injEq] at hk'
              rw [← hk', Nat.add_zero] at hc
              rw [hc, afterPut_fatal p partId c st.thriftResult h1 h2] at hr0
              cases hr0
            | succ k' =>
              simp only [List.getElem?_cons_succ] at hk'
              obtain ⟨pre, r, hrun, hlen, hcode, hpart⟩ := ih
                { data := [], batchPutNum := 0, thriftResult := r0, puts := st.puts + 1 }
                k' data hk' (by rw [← hc]; congr 1; simp only; omega)
              refine ⟨[Event.iterRead row.1 row.2, Event.assemble row.1 row.2,
                  Event.doBatchPut (st.data ++ [(indexKey, row.1)])] ++
                (afterPut p partId
                  (doBatchPut p st.puts p.spaceId_ partId (st.data ++ [(indexKey, row.1)]))
                  st.thriftResult).1 ++ pre, r, ?_, ?_, hcode,
                hpart.trans (afterPut_part_id p partId _ st.thriftResult r0 (Or.inl hr0))⟩
              · rw [hrun]; simp [andThen]
              · rw [putsOf_append, putsOf_append, hev, List.length_append,
                  List.length_append, hlen]
                change 1 + 0 + k' = k' + 1
                omega
          · rw [scanLoop_cons_put_end T p partId row rest st indexKey h hT
              (fun r hr => hp ⟨r, hr⟩)] at hk ⊢
            have hk' : [st.data ++ [(indexKey, row.1)]][k]? = some data := by
              simp only [putsOf_append, hev, List.append_nil] at hk
              exact hk
            cases k with
            | zero =>
              simp only [List.getElem?_cons_zero, Option.some.injEq] at hk'
              subst hk'
              rw [Nat.add_zero] at hc
              rw [hc, afterPut_fatal p partId c st.thriftResult h1 h2]
              exact ⟨[Event.iterRead row.1 row.2, Event.assemble row.1 row.2],
                { st.thriftResult with code := c }, rfl, rfl, rfl, rfl⟩
            | succ k' => simp at hk'
        · rw [scanLoop_cons_keep T p partId row rest st indexKey h hT] at hk ⊢
          have hk' : (putsOf (scanLoop T p partId rest
              { data := st.data ++ [(indexKey, row.1)],
                batchPutNum := wrapInt32 (st.batchPutNum + 1),
                thriftResult := st.thriftResult, puts := st.puts }).1)[k]? = some data := by
            simpa [andThen, putsOf_append, putsOf] using hk
          obtain ⟨pre, r, hrun, hlen, hcode, hpart⟩ := ih _ k data hk' hc
          refine ⟨[Event.iterRead row.1 row.2, Event.assemble row.1 row.2] ++ pre, r, ?_,
            ?_, hcode, hpart⟩
          · rw [hrun]; simp [andThen]
          · rw [putsOf_append, List.length_append, hlen]
            change 0 + k = k
            omega

/-- C11. A fatal write error stops the partition: in every run of
`doIndexCreate`, if the put number `k` returns a code `c` that is neither
`SUCCEEDED` nor `E_LEADER_CHANGED`, then that put is followed by nothing but
`finishProcess` with a result of code `c` for the partition: no further row is
read or transformed and no further `doBatchPut` is issued. `doBatchPut` itself
returns `SUCCEEDED` when the store's callback reports `SUCCEEDED` and the
translated code `to(code)` otherwise, hence `SUCCEEDED` exactly when the
callback reports it, as long as `to` translates no failure to `SUCCEEDED`. -/
theorem fatal_write_stops (T : Int) (p : IndexBaseProcessor Reader Cols)
    (agg : Aggregator) (partId : Int) :
    (∀ (k : Nat) (data : List kvstore.KV) (c : cpp2.ErrorCode),
      (putsOf (doIndexCreate T p agg partId).trace)[k]? = some data →
      doBatchPut p k p.spaceId_ partId data = c →
      c ≠ cpp2.ErrorCode.SUCCEEDED → c ≠ cpp2.ErrorCode.E_LEADER_CHANGED →
      ∃ (pre : List Event) (r : cpp2.ResultCode),
        (doIndexCreate T p agg partId).trace =
            pre ++ Event.doBatchPut data :: Event.finishProcess r ::
              (finishProcess p.spaceId_ agg r).2 ∧
          (doIndexCreate T p agg partId).agg = (finishProcess p.spaceId_ agg r).1 ∧
          (putsOf pre).length = k ∧ r.code = c ∧ r.part_id = partId) ∧
    (∀ (n : Nat) (spaceId part : Int) (data : List kvstore.KV),
      (p.asyncMultiPut n spaceId part data = kvstore.ResultCode.SUCCEEDED →
          doBatchPut p n spaceId part data = cpp2.ErrorCode.SUCCEEDED) ∧
        (p.asyncMultiPut n spaceId part data ≠ kvstore.ResultCode.SUCCEEDED →
          doBatchPut p n spaceId part data = p.to_ (p.asyncMultiPut n spaceId part data)) ∧
        ((∀ code, code ≠ kvstore.ResultCode.SUCCEEDED →
            p.to_ code ≠ cpp2.ErrorCode.SUCCEEDED) →
          (doBatchPut p n spaceId part data = cpp2.ErrorCode.SUCCEEDED ↔
            p.asyncMultiPut n spaceId part data = kvstore.ResultCode.SUCCEEDED))) := by
  constructor
  · intro k data c hk hc h1 h2
    rcases doIndexCreate_opened_or_no_put T p agg partId with ⟨rows, hopen⟩ | hnone
    · have inLoop : (putsOf (scanLoop T p partId rows (ScanState.init partId)).1)[k]? =
            some data →
          ∃ (pre : List Event) (r : cpp2.ResultCode),
            (doIndexCreate T p agg partId).trace =
                pre ++ Event.doBatchPut data :: Event.finishProcess r ::
                  (finishProcess p.spaceId_ agg r).2 ∧
              (doIndexCreate T p agg partId).agg = (finishProcess p.spaceId_ agg r).1 ∧
              (putsOf pre).length = k ∧ r.code = c ∧ r.part_id = partId := by
        intro hk'
        obtain ⟨pre, r, hrun, hlen, hcode, hpart⟩ :=
          scanLoop_fatal T p partId c h1 h2 rows (ScanState.init partId) k data hk'
            (by simpa [ScanState.init] using hc)
        have hexit : (scanLoop T p partId rows (ScanState.init partId)).2 = ScanExit.stop r := by
          rw [hrun]
        refine ⟨pre, r, ?_, ?_, hlen, hcode, hpart⟩
        · rw [doIndexCreate_stopped T p agg partId rows r hopen hexit, hrun]
          simp [finishWith]
        · rw [doIndexCreate_stopped T p agg partId rows r hopen hexit]
          rfl
      by_cases hflush : ∃ st, (scanLoop T p partId rows (ScanState.init partId)).2 =
          ScanExit.exhausted st ∧ st.data ≠ []
      · obtain ⟨st, hexit, hdata⟩ := hflush
        rw [putsOf_doIndexCreate_flush T p agg partId rows st hopen hexit hdata] at hk
        by_cases hin : k < (putsOf (scanLoop T p partId rows (ScanState.init partId)).1).length
        · rw [List.getElem?_append_left hin] at hk
          exact inLoop hk
        · rw [List.getElem?_append_right (Nat.le_of_not_lt hin)] at hk
          obtain ⟨hpart, hputs⟩ :=
            (scanLoop_exit T p partId rows (ScanState.init partId)).1 st hexit
          have hk0 : k - (putsOf (scanLoop T p partId rows (ScanState.init partId)).1).length =
              0 := by
            by_contra hne
            obtain ⟨m, hm⟩ := Nat.exists_eq_succ_of_ne_zero hne
            rw [hm] at hk
            simp at hk
          rw [hk0] at hk
          simp only [List.getElem?_cons_zero, Option.some.injEq] at hk
          have hkeq : st.puts = k := by
            have h0 : (ScanState.init partId).puts = 0 := rfl
            rw [h0] at hputs
            omega
          subst hk
          rw [← hkeq] at hc
          have hflushed := doIndexCreate_exhausted_flush T p agg partId rows st hopen hexit hdata
          rw [hc, afterPut_fatal p partId c st.thriftResult h1 h2] at hflushed
          refine ⟨(scanLoop T p partId rows (ScanState.init partId)).1,
            { st.thriftResult with code := c }, ?_, ?_, ?_, rfl, hpart⟩
          · rw [hflushed]
            simp [finishWith]
          · rw [hflushed]
            rfl
          · omega
      · rw [putsOf_doIndexCreate_no_flush T p agg partId rows hopen
          (fun st hst => by
            by_contra hdata
            exact hflush ⟨st, hst, hdata⟩)] at hk
        exact inLoop hk
    · rw [hnone] at hk
      simp at hk
  · intro n spaceId part data
    refine ⟨fun hs => ?_, fun hs => ?_, fun hto => ⟨fun hret => ?_, fun hs => ?_⟩⟩
    · simp [doBatchPut, hs]
    · simp [doBatchPut, hs]
    · by_contra hs
      have : doBatchPut p n spaceId part data = p.to_ (p.asyncMultiPut n spaceId part data) := by
        simp [doBatchPut, hs]
      rw [this] at hret
      exact hto _ hs hret
    · simp [doBatchPut, hs]

/-- Witness of C11: the first write of `demoWriteFails` returns the code
numbered `4`; the second row is never read. -/
theorem fatal_write_stops_witness :
    doBatchPut demoWriteFails 0 1 3 [([3, 7, 10, 0, 65], [5, 10, 0])] =
        cpp2.ErrorCode.other 4 ∧
      ∃ (pre : List Event) (r : cpp2.ResultCode),
        (doIndexCreate 1 demoWriteFails (Aggregator.start 1) 3).trace =
            pre ++ Event.doBatchPut [([3, 7, 10, 0, 65], [5, 10, 0])] ::
              Event.finishProcess r ::
              (finishProcess demoWriteFails.spaceId_ (Aggregator.start 1) r).2 ∧
          (doIndexCreate 1 demoWriteFails (Aggregator.start 1) 3).agg =
            (finishProcess demoWriteFails.spaceId_ (Aggregator.start 1) r).1 ∧
          (putsOf pre).length = 0 ∧ r.code = cpp2.ErrorCode.other 4 ∧ r.part_id = 3 :=
  ⟨rfl,
    (fatal_write_stops 1 demoWriteFails (Aggregator.start 1) 3).1 0
      [([3, 7, 10, 0, 65], [5, 10, 0])] (cpp2.ErrorCode.other 4) (by decide) rfl
      (by decide) (by decide)⟩

/-! ## Scans that hold an undecodable row, as the code runs them -/

/-- C6, evaluated. The scan of `demoUndecodable` opens and every write
succeeds; its first row is indexable, its second row has no reader. With the
threshold `1` the pair of the first row is written before the second row is
read; with the threshold `2`, the row count, the run stops at
`reader->schemaVer()` on the null `reader` (line 172) before the flush of line
89 and writes nothing: the pairs written depend on the threshold. -/
theorem undecodable_row_breaks_batch_boundary :
    demoUndecodable.prefixSnapshot 1 3 (demoUndecodable.partPrefix 3) =
        (kvstore.ResultCode.SUCCEEDED, some [([5, 10, 0], [2, 65]), ([5, 11, 0], [])]) ∧
      indexPairsInScanOrder demoUndecodable 3 [([5, 10, 0], [2, 65]), ([5, 11, 0], [])] =
        [([3, 7, 10, 0, 65], [5, 10, 0])] ∧
      (putsOf (doIndexCreate 1 demoUndecodable (Aggregator.start 1) 3).trace).flatten =
        [([3, 7, 10, 0, 65], [5, 10, 0])] ∧
      (putsOf (doIndexCreate 2 demoUndecodable (Aggregator.start 1) 3).trace).flatten = [] ∧
      (doIndexCreate 2 demoUndecodable (Aggregator.start 1) 3).trace =
        [Event.iterRead [5, 10, 0] [2, 65], Event.assemble [5, 10, 0] [2, 65],
          Event.iterRead [5, 11, 0] [], Event.assemble [5, 11, 0] [],
          Event.nullDeref] := by
  decide

/-- C12, evaluated. The scan of `demoUndecodable` opens and the one write
succeeds; the transformation of the second row fails on a value that cannot be
decoded (`getTagPropReader` returns null). The row is not skipped: the run
stops at `reader->schemaVer()` on the null `reader` (line 172), `finishProcess`
is never called and no result is reported for the partition. -/
theorem undecodable_row_surfaces :
    demoUndecodable.getTagPropReader [] 1 (demoUndecodable.parseTagId [5, 11, 0]) = none ∧
      (doIndexCreate 1 demoUndecodable (Aggregator.start 1) 3).trace =
        [Event.iterRead [5, 10, 0] [2, 65], Event.assemble [5, 10, 0] [2, 65],
          Event.doBatchPut [([3, 7, 10, 0, 65], [5, 10, 0])],
          Event.iterRead [5, 11, 0] [], Event.assemble [5, 11, 0] [],
          Event.nullDeref] ∧
      finishCalls (doIndexCreate 1 demoUndecodable (Aggregator.start 1) 3).trace = [] ∧
      (doIndexCreate 1 demoUndecodable (Aggregator.start 1) 3).agg = Aggregator.start 1 := by
  decide

/-- C18, evaluated. Under the threshold `0` the scan of `demoUndecodable`,
whose first row is transformable, issues no `doBatchPut` at all: the run stops
at `reader->schemaVer()` on the null `reader` of the second row (line 172)
and never reaches the flush of line 89. -/
theorem undecodable_row_prevents_flush :
    assembleIndexKey demoUndecodable 3 [5, 10, 0] [2, 65] =
        Exec.returns (StatusOr.ok [3, 7, 10, 0, 65]) ∧
      assembleIndexKey demoUndecodable 3 [5, 11, 0] [] = Exec.nullDeref ∧
      putsOf (doIndexCreate 0 demoUndecodable (Aggregator.start 1) 3).trace = [] ∧
      (doIndexCreate 0 demoUndecodable (Aggregator.start 1) 3).trace =
        [Event.iterRead [5, 10, 0] [2, 65], Event.assemble [5, 10, 0] [2, 65],
          Event.iterRead [5, 11, 0] [], Event.assemble [5, 11, 0] [],
          Event.nullDeref] := by
  decide

end storage

namespace graph

/-! ## The authorization check of the executor -/

/-- C19. Authorization toggle: for every space id, user and sentence kind,
`checkACL` returns `OK` without a question to the meta client when
`FLAGS_security_authorization_enable` is false; when it is true, it returns the
status of the user lookup if `getUserIdByNameFromCache` fails, otherwise the
status of `UserAccessControl::checkPerms` if that fails, and `OK` exactly when
both succeed. -/
theorem checkACL_toggle {Kind : Type} (ac : AccessControl Kind) (spaceId : Int)
    (user : String) (op : Kind) :
    checkACL false ac spaceId user op = (Status.OK, []) ∧
      (∀ fmt args, ac.getUserIdByNameFromCache user = StatusOr.error fmt args →
        checkACL true ac spaceId user op =
          (Status.Error fmt args, [MetaCall.getUserIdByNameFromCache user])) ∧
      (∀ userId, ac.getUserIdByNameFromCache user = StatusOr.ok userId →
        ac.checkPerms spaceId userId op ≠ Status.OK →
        (checkACL true ac spaceId user op).1 = ac.checkPerms spaceId userId op) ∧
      ((checkACL true ac spaceId user op).1 = Status.OK ↔
        ∃ userId, ac.getUserIdByNameFromCache user = StatusOr.ok userId ∧
          ac.checkPerms spaceId userId op = Status.OK) := by
  refine ⟨rfl, fun fmt args h => ?_, fun userId h hperm => ?_, ?_⟩
  · simp [checkACL, h]
  · simp [checkACL, h, hperm]
  · cases h : ac.getUserIdByNameFromCache user with
    | error fmt args => simp [checkACL, h]
    | ok userId =>
      by_cases hperm : ac.checkPerms spaceId userId op = Status.OK
      · simp [checkACL, h, hperm]
      · simp [checkACL, h, hperm]

/-- Witness of C19: with the check enabled, `guest` is known but may not run a
sentence of kind `3`, `nobody` is unknown, and `root` may; with the check
disabled `nobody` passes and the meta client is not asked. -/
theorem checkACL_toggle_witness :
    checkACL false demoAccess 1 "nobody" 3 = (Status.OK, []) ∧
      checkACL true demoAccess 1 "nobody" 3 =
        (Status.Error "User not found" [], [MetaCall.getUserIdByNameFromCache "nobody"]) ∧
      (checkACL true demoAccess 1 "guest" 3).1 = Status.Error "Permission denied" [] ∧
      (checkACL true demoAccess 1 "root" 3).1 = Status.OK :=
  ⟨(checkACL_toggle demoAccess 1 "nobody" 3).1,
    (checkACL_toggle demoAccess 1 "nobody" 3).2.1 "User not found" [] (by decide),
    ((checkACL_toggle demoAccess 1 "guest" 3).2.2.1 2 (by decide) (by decide)).trans
      (by decide),
    (checkACL_toggle demoAccess 1 "root" 3).2.2.2.mpr ⟨1, by decide, by decide⟩⟩

end graph
end nebula
